import Mathlib

/-
  Verification of the LinkShuffler bookmark manager core.

  This file shallowly embeds the algorithmic core of the repository:
  the advanced search / filter pipeline and token index of
  utils/enhanced_bookmark_manager.py, its sort engine (including the
  composite smart score), the domain extraction helper, the text
  similarity utility and URL normalization of controllers/file_controller.py
  (including a model of difflib.SequenceMatcher.ratio), the performer
  analysis of adult_content_manager.py, and the shuffle operation of
  controllers/link_controller.py.

  Modelling conventions:
  - Python str values are Lean String / List Char; only ASCII case mapping
    is modelled (Char.toLower / Char.toUpper agree with Python on ASCII).
  - Python float arithmetic is modelled with Rat (exact rationals).
  - Python datetime values are modelled as day counts (Int); an Option
    models an attribute that is absent or None.
  - Python set values are modelled as lists; iteration order of a Python
    set is unspecified, so every theorem stated about data that passed
    through a set is order-insensitive (membership / length), except where
    a canonical order (the order of the underlying collection) is chosen
    and noted.
  - random.sample is modelled as an explicit selection-function parameter
    constrained by the hypotheses of the theorems that mention it.
-/

/-! ## Basic string utilities (models of Python str operations) -/

/-- ASCII lowercase of a character list, modelling Python str.lower on ASCII. -/
def lowerList (l : List Char) : List Char := l.map Char.toLower

/-- Lowercase a string, modelling Python str.lower on ASCII. -/
def strLower (s : String) : String := String.mk (lowerList s.data)

/-- leadMatch needle hay is true when needle is an initial segment of hay,
modelling Python str.startswith. -/
def leadMatch : List Char → List Char → Bool
  | [], _ => true
  | _ :: _, [] => false
  | c :: cs, d :: ds => c == d && leadMatch cs ds

/-- subMatch needle hay is true when needle occurs contiguously in hay,
modelling the Python substring test (needle in hay). -/
def subMatch (needle : List Char) : List Char → Bool
  | [] => needle.isEmpty
  | d :: ds => leadMatch needle (d :: ds) || subMatch needle ds

/-- Remove every non-overlapping occurrence of the pattern p :: ps,
scanning left to right, modelling Python str.replace(pat, "").  The fuel
argument makes the recursion structural; every step consumes at least one
character, so fuel equal to the list length reaches the fixpoint. -/
def removeSubAux (p : Char) (ps : List Char) : Nat → List Char → List Char
  | _, [] => []
  | 0, l => l
  | fuel + 1, c :: cs =>
    if leadMatch (p :: ps) (c :: cs) then removeSubAux p ps fuel (cs.drop ps.length)
    else c :: removeSubAux p ps fuel cs

/-- Python str.replace(pat, "") for a nonempty pattern; the empty pattern
never arises in the embedded code. -/
def removeSub (pat : List Char) (l : List Char) : List Char :=
  match pat with
  | [] => l
  | p :: ps => removeSubAux p ps l.length l

/-- Split a character list into the (possibly empty) maximal runs of
characters satisfying keep, modelling the pieces produced by splitting on
the complementary characters. -/
def runsAux (keep : Char → Bool) (cur : List Char) : List Char → List (List Char)
  | [] => [cur.reverse]
  | c :: cs =>
    if keep c then runsAux keep (c :: cur) cs
    else cur.reverse :: runsAux keep [] cs

/-- Python str.split() with no argument: split on whitespace runs,
dropping empty pieces. -/
def splitWs (l : List Char) : List (List Char) :=
  (runsAux (fun c => !c.isWhitespace) [] l).filter (fun w => !w.isEmpty)

/-- Python str.strip(): drop whitespace from both ends. -/
def pyStrip (l : List Char) : List Char :=
  ((l.dropWhile Char.isWhitespace).reverse.dropWhile Char.isWhitespace).reverse

/-- Python str.split(sep) for a nonempty separator s :: ss: pieces between
non-overlapping occurrences, keeping empty pieces; fuel as in
removeSubAux. -/
def splitSubAux (s : Char) (ss : List Char) : Nat → List Char → List Char → List (List Char)
  | _, cur, [] => [cur.reverse]
  | 0, cur, l => [cur.reverse ++ l]
  | fuel + 1, cur, c :: cs =>
    if leadMatch (s :: ss) (c :: cs) then
      cur.reverse :: splitSubAux s ss fuel [] (cs.drop ss.length)
    else splitSubAux s ss fuel (c :: cur) cs

/-- Python str.split(sep); an empty separator raises in Python and is not
used by the embedded code, here it returns the whole string unsplit. -/
def splitSub (sep : List Char) (l : List Char) : List (List Char) :=
  match sep with
  | [] => [l]
  | s :: ss => splitSubAux s ss l.length [] l

/-- Python str.title() on ASCII: a letter is uppercased when the previous
character is not a letter, lowercased otherwise. -/
def pyTitleAux (prev : Bool) : List Char → List Char
  | [] => []
  | c :: cs =>
    if c.isAlpha then (if prev then c.toLower else c.toUpper) :: pyTitleAux true cs
    else c :: pyTitleAux false cs

/-- Python str.title() on ASCII. -/
def pyTitleCase (l : List Char) : List Char := pyTitleAux false l

/-- Python str.isupper() on ASCII: at least one letter and every letter
uppercase. -/
def pyIsUpper (w : List Char) : Bool :=
  w.any Char.isAlpha && w.all (fun c => !c.isAlpha || c.isUpper)

/-! ## Model of difflib.SequenceMatcher(None, a, b).ratio()

CPython difflib with isjunk=None: b2j maps each element of b to its
ascending list of positions; with autojunk, when len(b) >= 200 the
elements occurring more than len(b)//100 + 1 times are dropped from b2j.
find_longest_match runs the classic dynamic program and then extends the
best block on both ends; the junk-extension loops are no-ops because the
junk set is empty.  ratio is 2*M/T where M is the total size of the
matching blocks found by the recursive longest-match decomposition and T
the total length. -/

/-- Ascending positions of c in b (the b2j entry before autojunk). -/
def charPositions (b : List Char) (c : Char) : List Nat :=
  (List.range b.length).filter (fun j => b.getD j ' ' == c)

/-- The b2j table of SequenceMatcher with the autojunk rule applied. -/
def b2j (b : List Char) (c : Char) : List Nat :=
  let js := charPositions b c
  if 200 ≤ b.length ∧ b.length / 100 + 1 < js.length then [] else js

/-- The running best block of find_longest_match. -/
structure Best where
  i : Nat
  j : Nat
  size : Nat
deriving DecidableEq

/-- Inner loop of the find_longest_match dynamic program over the b2j
positions of the current a-element: Python skips j < blo, breaks at
j >= bhi (the position lists are ascending), and records a strictly
better block. -/
def innerLoop (old : Nat → Nat) (i blo bhi : Nat) :
    List Nat → (Nat → Nat) → Best → ((Nat → Nat) × Best)
  | [], cur, best => (cur, best)
  | j :: js, cur, best =>
    if j < blo then innerLoop old i blo bhi js cur best
    else if bhi ≤ j then (cur, best)
    else
      let k := (if j = 0 then 0 else old (j - 1)) + 1
      let cur' := fun x => if x = j then k else cur x
      let best' := if best.size < k then Best.mk (i + 1 - k) (j + 1 - k) k else best
      innerLoop old i blo bhi js cur' best'

/-- Outer loop of the dynamic program over the a-indices. -/
def dpLoop (a b : List Char) (blo bhi : Nat) :
    List Nat → (Nat → Nat) → Best → Best
  | [], _, best => best
  | i :: is, old, best =>
    let r := innerLoop old i blo bhi (b2j b (a.getD i ' ')) (fun _ => 0) best
    dpLoop a b blo bhi is r.1 r.2

/-- Extension of the best block to the left while the adjacent elements
match (the non-junk extension loop of find_longest_match). -/
def extendLeft (a b : List Char) (alo blo : Nat) : Nat → Best → Best
  | 0, best => best
  | fuel + 1, best =>
    if alo < best.i ∧ blo < best.j ∧ a.getD (best.i - 1) ' ' = b.getD (best.j - 1) ' ' then
      extendLeft a b alo blo fuel (Best.mk (best.i - 1) (best.j - 1) (best.size + 1))
    else best

/-- Extension of the best block to the right while the adjacent elements
match. -/
def extendRight (a b : List Char) (ahi bhi : Nat) : Nat → Best → Best
  | 0, best => best
  | fuel + 1, best =>
    if best.i + best.size < ahi ∧ best.j + best.size < bhi ∧
        a.getD (best.i + best.size) ' ' = b.getD (best.j + best.size) ' ' then
      extendRight a b ahi bhi fuel (Best.mk best.i best.j (best.size + 1))
    else best

/-- find_longest_match(alo, ahi, blo, bhi) of SequenceMatcher. -/
def findLongestMatch (a b : List Char) (alo ahi blo bhi : Nat) : Best :=
  let best := dpLoop a b blo bhi (List.range' alo (ahi - alo)) (fun _ => 0) (Best.mk alo blo 0)
  let best := extendLeft a b alo blo best.i best
  extendRight a b ahi bhi (ahi - (best.i + best.size)) best

/-- Total matched size over the recursive matching-block decomposition of
get_matching_blocks; fuel bounds the recursion depth and any fuel of at
least ahi - alo reaches the fixpoint since each recursive interval is
strictly smaller. -/
def matchTotal (a b : List Char) : Nat → Nat → Nat → Nat → Nat → Nat
  | 0, _, _, _, _ => 0
  | fuel + 1, alo, ahi, blo, bhi =>
    let m := findLongestMatch a b alo ahi blo bhi
    if m.size = 0 then 0
    else
      matchTotal a b fuel alo m.i blo m.j + m.size +
        matchTotal a b fuel (m.i + m.size) ahi (m.j + m.size) bhi

/-- SequenceMatcher(None, a, b).ratio(): 2*M/T, and 1 when both empty. -/
def ratioQ (a b : List Char) : Rat :=
  let total := a.length + b.length
  if total = 0 then 1
  else 2 * ((matchTotal a b (a.length + 1) 0 a.length 0 b.length : Nat) : Rat) / (total : Rat)

/-! ## The bookmark record and search filter -/

/-- The bookmark record of models/bookmark.py, with the optional
duck-typed attributes (visit_count, description) that the engine probes
with hasattr; none means the attribute is absent or falsy None. Dates are
modelled as day counts. -/
structure Bookmark where
  url : String
  title : String
  category : String
  rating : Option Int
  keywords : List String
  dateAdded : Option Int
  visitCount : Option Int
  description : Option String
deriving DecidableEq

/-- SortOrder of enhanced_bookmark_manager.py. -/
inductive SortOrder where
  | ASC
  | DESC
deriving DecidableEq

/-- SearchFilter of enhanced_bookmark_manager.py; list fields default to
empty after __post_init__. -/
structure SearchFilter where
  query : String
  categories : List String
  minRating : Option Int
  maxRating : Option Int
  domains : List String
  tags : List String
  dateFrom : Option Int
  dateTo : Option Int
  fuzzyThreshold : Rat
  caseSensitive : Bool
  regexEnabled : Bool
deriving DecidableEq

/-- The all-default SearchFilter (query "", no restrictions, fuzzy
threshold 0.6). -/
def defaultFilter : SearchFilter :=
  SearchFilter.mk ("") [] none none [] [] none none (3 / 5) false false

/-- The manager state consulted by advanced_search: the collection plus
the use_indexing flag and whether the search index is built; the index
itself is the one built from the current collection. -/
structure Manager where
  bookmarks : List Bookmark
  useIndexing : Bool
  indexBuilt : Bool

/-! ## Domain extraction (PerformanceOptimizations.cached_domain_extraction)

urlparse(url).netloc is modelled per CPython urlsplit: after removing
ASCII tab/newline characters and stripping leading and trailing
control-or-space characters, a leading scheme (an ASCII letter followed
by letters, digits, '+', '-', '.') up to ':' is removed, and the netloc
is the segment after a literal "//" up to the next '/', '?' or '#'
(empty when the remainder does not start with "//"). -/

/-- Characters permitted inside a URL scheme after the first letter. -/
def schemeChar (c : Char) : Bool :=
  c.isAlphanum || c == '+' || c == '-' || c == '.'

/-- The netloc as a character list; see module comment. -/
def netlocList (url : List Char) : List Char :=
  let l := url.filter (fun c => !(c == '\t') && !(c == '\r') && !(c == '\n'))
  let l := l.dropWhile (fun c => c.toNat ≤ 32)
  let l := (l.reverse.dropWhile (fun c => c.toNat ≤ 32)).reverse
  let i := l.indexOf ':'
  let rest :=
    if 0 < i ∧ i < l.length ∧ (l.headD ' ').isAlpha ∧ ((l.take i).drop 1).all schemeChar then
      l.drop (i + 1)
    else l
  if leadMatch ['/', '/'] rest then
    (rest.drop 2).takeWhile (fun c => !(c == '/') && !(c == '?') && !(c == '#'))
  else []

/-- urlparse(url).netloc. -/
def pyNetloc (url : String) : String := String.mk (netlocList url.data)

/-- PerformanceOptimizations.cached_domain_extraction:
urlparse(url).netloc.replace("www.", "").lower(); the lru_cache wrapper
is pure memoization and is not modelled. -/
def cachedDomainExtraction (url : String) : String :=
  strLower (String.mk (removeSub ("www.".data) (netlocList url.data)))

/-! ## Text similarity (FileController._fast_similarity_score) -/

/-- FileController._fast_similarity_score: empty short-circuit, exact
case-insensitive match short-circuit, length-ratio pre-filter, then
SequenceMatcher ratio over the lowercased strings. -/
def fastSimilarityScore (t1 t2 : String) : Rat :=
  if t1.data.isEmpty || t2.data.isEmpty then 0
  else if lowerList t1.data = lowerList t2.data then 1
  else
    let l1 : Rat := (t1.data.length : Rat)
    let l2 : Rat := (t2.data.length : Rat)
    if min l1 l2 / max l1 l2 < 1 / 2 then 0
    else ratioQ (lowerList t1.data) (lowerList t2.data)

/-! ## The token index (SearchIndex) -/

/-- A character of a regex word class \w (ASCII). -/
def isWordChar (c : Char) : Bool := c.isAlphanum || c == '_'

/-- SearchIndex._tokenize: split on non-word characters and keep tokens
longer than 2 characters (the strip in the source is a no-op on word
runs). -/
def tokenizeL (l : List Char) : List (List Char) :=
  (runsAux isWordChar [] l).filter (fun w => 2 < w.length)

/-- True when the token w is indexed for b in any of the title, url,
keyword or category indexes of SearchIndex.build_index. -/
def tokenHit (w : List Char) (b : Bookmark) : Bool :=
  (tokenizeL (lowerList b.title.data)).contains w ||
  (tokenizeL (lowerList b.url.data)).contains w ||
  (!b.keywords.isEmpty && b.keywords.any (fun kw => (tokenizeL (lowerList kw.data)).contains w)) ||
  (tokenizeL (lowerList b.category.data)).contains w

/-- SearchIndex.search over the index built from bs: intersect the hit
sets of the query tokens; when the running result set is empty it is
replaced by the next hit set, as in the source.  Python set iteration
order is unspecified; the result here carries the order of bs, and every
theorem about it is order-insensitive. -/
def indexSearch (bs : List Bookmark) (q : String) : List Bookmark :=
  let ws := tokenizeL (lowerList q.data)
  if ws.isEmpty then []
  else
    ws.foldl
      (fun res w =>
        let hw := bs.filter (fun b => tokenHit w b)
        if res.isEmpty then hw else res.filter (fun b => hw.contains b))
      []

/-! ## Text search and the filter pipeline (EnhancedBookmarkManager) -/

/-- The search text of _text_search: title, url, the description when the
attribute exists, and the keywords joined by spaces when nonempty. -/
def searchText (b : Bookmark) : String :=
  let base := b.title ++ " " ++ b.url
  let base := match b.description with
    | some d => base ++ " " ++ d
    | none => base
  if b.keywords.isEmpty then base else base ++ " " ++ String.intercalate (" ") b.keywords

/-- The per-bookmark predicate of _text_search: regex match (the regex
engine is an uninterpreted parameter rm, with a pattern that errors
modelled as matching nothing), else substring match, else the
SequenceMatcher ratio of the query against the lowercased title reaching
the fuzzy threshold. -/
def textMatch (rm : String → String → Bool) (f : SearchFilter) (b : Bookmark) : Bool :=
  let q := if f.caseSensitive then f.query else strLower f.query
  let st := if f.caseSensitive then searchText b else strLower (searchText b)
  (f.regexEnabled && rm q st) ||
  subMatch q.data st.data ||
  decide (f.fuzzyThreshold ≤ ratioQ q.data (lowerList b.title.data))

/-- EnhancedBookmarkManager._text_search as a filter over the collection. -/
def textSearch (rm : String → String → Bool) (f : SearchFilter) (bs : List Bookmark) :
    List Bookmark :=
  bs.filter (textMatch rm f)

/-- Python truthiness of the rating attribute: present and nonzero. -/
def ratingTruthy (b : Bookmark) : Bool :=
  match b.rating with
  | some v => !(v == 0)
  | none => false

/-- The rating value when present (only consulted after ratingTruthy). -/
def ratingVal (b : Bookmark) : Int :=
  match b.rating with
  | some v => v
  | none => 0

/-- Category stage of _apply_filters. -/
def stageCategories (f : SearchFilter) (bs : List Bookmark) : List Bookmark :=
  if f.categories.isEmpty then bs
  else bs.filter (fun b => f.categories.contains b.category)

/-- Minimum-rating stage of _apply_filters: b.rating and b.rating >= min. -/
def stageMinRating (f : SearchFilter) (bs : List Bookmark) : List Bookmark :=
  match f.minRating with
  | none => bs
  | some r => bs.filter (fun b => ratingTruthy b && decide (r ≤ ratingVal b))

/-- Maximum-rating stage of _apply_filters: b.rating and b.rating <= max. -/
def stageMaxRating (f : SearchFilter) (bs : List Bookmark) : List Bookmark :=
  match f.maxRating with
  | none => bs
  | some r => bs.filter (fun b => ratingTruthy b && decide (ratingVal b ≤ r))

/-- Domain stage of _apply_filters via _filter_by_domains: the extracted
domain must contain one of the requested substrings. -/
def stageDomains (f : SearchFilter) (bs : List Bookmark) : List Bookmark :=
  if f.domains.isEmpty then bs
  else bs.filter (fun b => f.domains.any (fun d => subMatch d.data (cachedDomainExtraction b.url).data))

/-- Tag stage of _apply_filters via _filter_by_tags: nonempty keywords
intersecting the requested tags. -/
def stageTags (f : SearchFilter) (bs : List Bookmark) : List Bookmark :=
  if f.tags.isEmpty then bs
  else bs.filter (fun b => !b.keywords.isEmpty && f.tags.any (fun t => b.keywords.contains t))

/-- Date stage of _apply_filters via _filter_by_date: active when either
bound is set; keeps only records with a date inside the bounds. -/
def stageDate (f : SearchFilter) (bs : List Bookmark) : List Bookmark :=
  if f.dateFrom.isSome || f.dateTo.isSome then
    bs.filter (fun b =>
      match b.dateAdded with
      | none => false
      | some d =>
        (match f.dateFrom with
         | some lo => decide (¬ d < lo)
         | none => true) &&
        (match f.dateTo with
         | some hi => decide (¬ hi < d)
         | none => true))
  else bs

/-- EnhancedBookmarkManager._apply_filters: the six conjunctive stages in
source order. -/
def applyFilters (f : SearchFilter) (bs : List Bookmark) : List Bookmark :=
  stageDate f (stageTags f (stageDomains f (stageMaxRating f (stageMinRating f (stageCategories f bs)))))

/-- The text phase of EnhancedBookmarkManager.advanced_search: for a
nonempty query with indexing enabled, a built index and more than 50
records, consult the token index and fall back to the whole collection
when it returns nothing; for a nonempty query otherwise, run the linear
text search; otherwise keep the whole collection. -/
def advancedSearchBase (rm : String → String → Bool) (m : Manager) (f : SearchFilter) :
    List Bookmark :=
  let bs := m.bookmarks
  if ¬ f.query = "" ∧ m.useIndexing = true ∧ m.indexBuilt = true ∧ 50 < bs.length then
    let r := indexSearch bs f.query
    if r.isEmpty then bs else r
  else if ¬ f.query = "" then textSearch rm f bs
  else bs

/-- EnhancedBookmarkManager.advanced_search: the text phase followed by
the non-text filters.  The search-history side effect returns no data
and is not modelled. -/
def advancedSearch (rm : String → String → Bool) (m : Manager) (f : SearchFilter) :
    List Bookmark :=
  applyFilters f (advancedSearchBase rm m f)

/-- One filter predicate of a SearchFilter being activated (switched from
its inactive default to an active value), leaving every other field
unchanged; this is the relation quantified over by the filter
monotonicity property. -/
inductive ActivatesOne : SearchFilter → SearchFilter → Prop where
  | category (f : SearchFilter) (cs : List String) (h : f.categories = []) (hcs : ¬ cs = []) :
      ActivatesOne f { f with categories := cs }
  | minRating (f : SearchFilter) (r : Int) (h : f.minRating = none) :
      ActivatesOne f { f with minRating := some r }
  | maxRating (f : SearchFilter) (r : Int) (h : f.maxRating = none) :
      ActivatesOne f { f with maxRating := some r }
  | domain (f : SearchFilter) (ds : List String) (h : f.domains = []) (hds : ¬ ds = []) :
      ActivatesOne f { f with domains := ds }
  | tag (f : SearchFilter) (ts : List String) (h : f.tags = []) (hts : ¬ ts = []) :
      ActivatesOne f { f with tags := ts }
  | dateFrom (f : SearchFilter) (d : Int) (h : f.dateFrom = none) :
      ActivatesOne f { f with dateFrom := some d }
  | dateTo (f : SearchFilter) (d : Int) (h : f.dateTo = none) :
      ActivatesOne f { f with dateTo := some d }
  | query (f : SearchFilter) (q : String) (h : f.query = "") (hq : ¬ q = "") :
      ActivatesOne f { f with query := q }

/-! ## Sort engine (EnhancedBookmarkManager.sort_bookmarks)

Python list.sort / sorted is a stable sort; it is modelled with
List.mergeSort, which is stable.  sorted(..., reverse=True) is the stable
sort under the reversed strict comparison, i.e. the stable sort by the
boolean comparison (key y <= key x). -/

/-- Python sorted(bs, key, reverse) for a key into a linear order. -/
def sortByKey {κ : Type} [LinearOrder κ] (k : Bookmark → κ) (rev : Bool) (bs : List Bookmark) :
    List Bookmark :=
  if rev then bs.mergeSort (fun x y => decide (k y ≤ k x))
  else bs.mergeSort (fun x y => decide (k x ≤ k y))

/-- The smart_score of _smart_sort: weighted sum of rating, visit count,
recency and title brevity; each clause contributes 0 when its input is
missing.  Float weights are modelled as the exact rationals they denote. -/
def smartScore (now : Int) (b : Bookmark) : Rat :=
  let s1 : Rat := if ratingTruthy b then (ratingVal b : Rat) * 0.4 else 0
  let s2 : Rat :=
    match b.visitCount with
    | some v => (v : Rat) * 0.3
    | none => 0
  let s3 : Rat :=
    match b.dateAdded with
    | some d => ((max 0 (365 - (now - d)) : Int) : Rat) / 365 * 0.2
    | none => 0
  let s4 : Rat := ((max 0 (100 - (b.title.data.length : Int)) : Int) : Rat) / 100 * 0.1
  s1 + s2 + s3 + s4

/-- The value getattr(x, field, "") produces for a sort key in
_background_sort: string attributes verbatim, rating as int or None,
date_added as datetime or None, keywords as a list, any other attribute
name (including "smart", "length", "popularity") the default "". -/
inductive PyKey where
  | pint (n : Int)
  | pstr (s : String)
  | pdate (d : Int)
  | plist (l : List String)
  | pnone
deriving DecidableEq

/-- Whether the key is an int. -/
def PyKey.isInt : PyKey → Bool
  | .pint _ => true
  | _ => false

/-- Whether the key is a string. -/
def PyKey.isStr : PyKey → Bool
  | .pstr _ => true
  | _ => false

/-- Whether the key is a datetime. -/
def PyKey.isDate : PyKey → Bool
  | .pdate _ => true
  | _ => false

/-- Whether the key is a list. -/
def PyKey.isList : PyKey → Bool
  | .plist _ => true
  | _ => false

/-- Python lexicographic comparison of string lists. -/
def listLe : List String → List String → Bool
  | [], _ => true
  | _ :: _, [] => false
  | a :: as, b :: bs => if a < b then true else if a = b then listLe as bs else false

/-- Python <= on two keys of the same orderable class; comparisons across
classes (or with None) raise TypeError in Python and are only reached
here below the comparability guard of backgroundSort. -/
def pyKeyLe : PyKey → PyKey → Bool
  | .pint a, .pint b => decide (a ≤ b)
  | .pstr a, .pstr b => decide (a ≤ b)
  | .pdate a, .pdate b => decide (a ≤ b)
  | .plist a, .plist b => listLe a b
  | _, _ => true

/-- getattr(x, field, "") as a sort key. -/
def pyAttr (field : String) (b : Bookmark) : PyKey :=
  if field = "title" then PyKey.pstr b.title
  else if field = "url" then PyKey.pstr b.url
  else if field = "category" then PyKey.pstr b.category
  else if field = "rating" then
    (match b.rating with
     | some v => PyKey.pint v
     | none => PyKey.pnone)
  else if field = "date_added" then
    (match b.dateAdded with
     | some d => PyKey.pdate d
     | none => PyKey.pnone)
  else if field = "keywords" then PyKey.plist b.keywords
  else if field = "visit_count" then
    (match b.visitCount with
     | some v => PyKey.pint v
     | none => PyKey.pstr (""))
  else PyKey.pstr ("")

/-- EnhancedBookmarkManager._background_sort:
sorted(bookmarks, key=lambda x: getattr(x, field, ""), reverse=reverse).
Sorting a list holding two keys that Python cannot compare (any pair
involving None, or mixed classes) raises TypeError, because a sort must
compare across every class boundary; this is modelled as an error
result exactly when the keys are not all of one orderable class. -/
def backgroundSort (bs : List Bookmark) (field : String) (rev : Bool) :
    Except String (List Bookmark) :=
  let ks := bs.map (pyAttr field)
  if ks.length ≤ 1 || ks.all PyKey.isInt || ks.all PyKey.isStr ||
      ks.all PyKey.isDate || ks.all PyKey.isList then
    Except.ok
      (if rev then bs.mergeSort (fun x y => pyKeyLe (pyAttr field y) (pyAttr field x))
       else bs.mergeSort (fun x y => pyKeyLe (pyAttr field x) (pyAttr field y)))
  else Except.error ("TypeError: incomparable sort keys")

/-- datetime.min as a day count (0001-01-01 relative to the Unix epoch). -/
def dateTimeMin : Int := -719162

/-- EnhancedBookmarkManager.sort_bookmarks: domain sorting first, the
background path for more than 1000 records, then the per-field keys;
smart passes reverse=not reverse to the score sort. -/
def sortBookmarks (now : Int) (bs : List Bookmark) (field : String) (ord : SortOrder) :
    Except String (List Bookmark) :=
  let rev := ord == SortOrder.DESC
  if field = "domain" then Except.ok (sortByKey (fun b => cachedDomainExtraction b.url) rev bs)
  else if 1000 < bs.length then backgroundSort bs field rev
  else if field = "title" then Except.ok (sortByKey (fun b => strLower b.title) rev bs)
  else if field = "url" then Except.ok (sortByKey (fun b => strLower b.url) rev bs)
  else if field = "category" then Except.ok (sortByKey (fun b => strLower b.category) rev bs)
  else if field = "rating" then Except.ok (sortByKey (fun b => b.rating.getD 0) rev bs)
  else if field = "date_added" then
    Except.ok (sortByKey (fun b => b.dateAdded.getD dateTimeMin) rev bs)
  else if field = "length" then Except.ok (sortByKey (fun b => (b.title.data.length : Int)) rev bs)
  else if field = "popularity" then Except.ok (sortByKey (fun b => b.visitCount.getD 0) rev bs)
  else if field = "smart" then Except.ok (sortByKey (smartScore now) (!rev) bs)
  else Except.ok bs

/-! ## Performer analysis (AdultContentCategorizationEngine) -/

/-- The performer_indicators list of the engine. -/
def performerIndicators : List String :=
  ["featuring", "with", "starring", "stars", "&", "and", "x", "vs"]

/-- The indicator branch of _extract_performers: for each indicator
occurring in the lowercased title, take the first one or two words after
the first occurrence, title-case them, and keep names of length 3..29. -/
def indicatorNames (titleLower : List Char) : List (List Char) :=
  performerIndicators.foldr
    (fun ind acc =>
      if subMatch ind.data titleLower then
        match splitSub ind.data titleLower with
        | _ :: p1 :: _ =>
          let pn := (splitWs (pyStrip p1)).take 2
          if pn.isEmpty then acc
          else
            let name := pyTitleCase (List.intercalate [' '] pn)
            if 2 < name.length ∧ name.length < 30 then name :: acc else acc
        | _ => acc
      else acc)
    []

/-- The capitalized-word-pair branch of _extract_performers: adjacent
words where the first starts uppercase, is longer than 2 characters and
is not all caps, and the second starts uppercase. -/
def capPairsAux : List (List Char) → List (List Char)
  | w1 :: w2 :: rest =>
    (if (w1.headD ' ').isUpper ∧ 2 < w1.length ∧ ¬ pyIsUpper w1 = true ∧ (w2.headD ' ').isUpper then
      (let name := w1 ++ [' '] ++ w2
       if name.length < 30 then [name] else [])
     else []) ++ capPairsAux (w2 :: rest)
  | _ => []

/-- AdultContentCategorizationEngine._extract_performers; the final
list(set(...)) deduplicates with unspecified order, modelled here as
keeping first occurrences. -/
def extractPerformers (title : String) : List String :=
  ((indicatorNames (lowerList title.data) ++ capPairsAux (splitWs title.data)).map
    String.mk).eraseDups

/-- Insertion-ordered grouping, modelling a Python defaultdict(list)
whose keys iterate in insertion order. -/
def groupInsert {α : Type} (key : String) (v : α) :
    List (String × List α) → List (String × List α)
  | [] => [(key, [v])]
  | (k, vs) :: rest =>
    if k = key then (k, vs ++ [v]) :: rest else (k, vs) :: groupInsert key v rest

/-- The suggestion dictionaries emitted by the categorization engine. -/
structure Suggestion where
  category : String
  bookmarks : List Bookmark
  confidence : Rat
  method : String
  description : String
  autoApply : Bool
deriving DecidableEq

/-- The performer_groups mapping of _analyze_by_performers: every
extracted performer of every uncategorized bookmark, grouped. -/
def performerGroups (bs : List Bookmark) : List (String × List Bookmark) :=
  bs.foldl
    (fun g b =>
      if b.category = "Uncategorized" then
        (extractPerformers b.title).foldl (fun g2 p => groupInsert p b g2) g
      else g)
    []

/-- AdultContentCategorizationEngine._analyze_by_performers: one
suggestion per performer group of size at least 3, with confidence
min(0.95, n/5) and auto_apply at size 5. -/
def analyzeByPerformers (bs : List Bookmark) : List Suggestion :=
  (performerGroups bs).foldr
    (fun pg acc =>
      if 3 ≤ pg.2.length then
        { category := pg.1
          bookmarks := pg.2
          confidence := min (0.95 : Rat) ((pg.2.length : Rat) / 5)
          method := "performer"
          description := "Videos featuring " ++ pg.1 ++ " (" ++ toString pg.2.length ++ " videos)"
          autoApply := decide (5 ≤ pg.2.length) } :: acc
      else acc)
    []

/-! ## URL normalization and duplicate detection phase 1 (FileController) -/

/-- One re.sub pass removing every non-overlapping occurrence of the
pattern "[?&]tag[^&]*" (a '?' or '&', the tag, then everything up to the
next '&'), scanning left to right as re.sub does; fuel as in
removeSubAux. -/
def dropParamAux (tag : List Char) : Nat → List Char → List Char
  | _, [] => []
  | 0, l => l
  | fuel + 1, c :: cs =>
    if (c == '?' || c == '&') && leadMatch tag cs then
      dropParamAux tag fuel ((cs.drop tag.length).dropWhile (fun d => !(d == '&')))
    else c :: dropParamAux tag fuel cs

/-- re.sub removing the pattern "[?&]tag[^&]*" everywhere. -/
def dropParam (tag : List Char) (l : List Char) : List Char :=
  dropParamAux tag l.length l

/-- Strip a leading "http://" or "https://" (re.sub("^https?://", "")). -/
def dropHttpPre (l : List Char) : List Char :=
  if leadMatch ("https://".data) l then l.drop 8
  else if leadMatch ("http://".data) l then l.drop 7
  else l

/-- Strip a leading "www." (re.sub of an anchored pattern). -/
def dropWwwPre (l : List Char) : List Char :=
  if leadMatch ("www.".data) l then l.drop 4 else l

/-- Python str.rstrip("/"). -/
def rstripSlash (l : List Char) : List Char :=
  (l.reverse.dropWhile (fun c => c == '/')).reverse

/-- FileController._normalize_url: lowercase, strip the scheme, strip a
leading www., strip trailing slashes, then remove the utm_, fbclid and
gclid tracking parameters. -/
def normalizeUrl (url : String) : String :=
  if url.data.isEmpty then "" else
  let l := lowerList url.data
  let l := dropHttpPre l
  let l := dropWwwPre l
  let l := rstripSlash l
  let l := dropParam ("utm_".data) l
  let l := dropParam ("fbclid=".data) l
  let l := dropParam ("gclid=".data) l
  String.mk l

/-- url_groups of find_duplicates: group the collection by normalized
URL, in insertion order. -/
def urlGroups (bs : List Bookmark) : List (String × List Bookmark) :=
  bs.foldl (fun g b => groupInsert (normalizeUrl b.url) b g) []

/-- All index pairs i < j of a list, in the nested-loop order of the
source. -/
def allPairs : List Bookmark → List (Bookmark × Bookmark)
  | [] => []
  | b :: rest => rest.map (fun b2 => (b, b2)) ++ allPairs rest

/-- Phase 1 of FileController.find_duplicates: every pair inside a
normalized-URL group of size greater than 1, flagged "Exact URL match". -/
def findDuplicatesPhase1 (bs : List Bookmark) : List (Bookmark × Bookmark × String) :=
  (urlGroups bs).foldr
    (fun g acc =>
      if 1 < g.2.length then
        (allPairs g.2).map (fun p => (p.1, p.2, "Exact URL match")) ++ acc
      else acc)
    []

/-! ## Shuffle (LinkController.shuffle_bookmarks) -/

/-- The shuffle-relevant state of LinkController: the collection and the
shown_links set (a set of URLs, modelled as a list used only through
membership). -/
structure ShuffleState where
  bookmarks : List Bookmark
  shownLinks : List String
deriving DecidableEq

/-- LinkController.shuffle_bookmarks with an explicit count: filter out
shown URLs; when nothing remains, clear shown_links and use the whole
collection; clamp the count; draw with the sampling function (the model
of random.sample); record the drawn URLs as shown.  The dialog path for
count=None and the history file I/O are not modelled. -/
def shuffleBookmarks (sample : List Bookmark → Nat → List Bookmark) (st : ShuffleState)
    (count : Nat) : List Bookmark × ShuffleState :=
  let available := st.bookmarks.filter (fun b => !st.shownLinks.contains b.url)
  let shown0 := if available.isEmpty then [] else st.shownLinks
  let avail := if available.isEmpty then st.bookmarks else available
  let c := min count avail.length
  let res := sample avail c
  (res, ShuffleState.mk st.bookmarks (res.map (fun b => b.url) ++ shown0))

/-! ## Concrete data used by the witnesses and counterexamples -/

/-- A regex engine that matches nothing (also the model of a pattern that
raises re.error). -/
def rmNone : String → String → Bool := fun _ _ => false

/-- A filler bookmark whose title is an ordinary token. -/
def demoDummy : Bookmark := ⟨"u", "aaa", "c", none, [], none, none, none⟩

/-- A bookmark whose title contains "cat" only inside a longer token. -/
def demoCat : Bookmark := ⟨"u2", "concatenate", "c", none, [], none, none, none⟩

/-- 51 bookmarks (above the indexing threshold) with indexing enabled and
a built index. -/
def demoMgr : Manager := ⟨List.replicate 50 demoDummy ++ [demoCat], true, true⟩

/-- The query "cat" with every other filter at its default. -/
def demoQueryFilter : SearchFilter := { defaultFilter with query := "cat" }

/-- Ten bookmarks of which exactly two have rating at least 4 (the
min-rating scenario of the specification). -/
def scenarioBookmarks : List Bookmark :=
  [⟨"u1", "t1", "A", some 1, [], none, none, none⟩,
   ⟨"u2", "t2", "A", none, [], none, none, none⟩,
   ⟨"u3", "t3", "A", some 4, [], none, none, none⟩,
   ⟨"u4", "t4", "B", some 2, [], none, none, none⟩,
   ⟨"u5", "t5", "B", none, [], none, none, none⟩,
   ⟨"u6", "t6", "B", some 3, [], none, none, none⟩,
   ⟨"u7", "t7", "C", some 5, [], none, none, none⟩,
   ⟨"u8", "t8", "C", none, [], none, none, none⟩,
   ⟨"u9", "t9", "C", some 2, [], none, none, none⟩,
   ⟨"u10", "t10", "C", some 1, [], none, none, none⟩]

/-- The manager over the ten-bookmark scenario collection, without
indexing. -/
def scenarioMgr : Manager := ⟨scenarioBookmarks, false, false⟩

/-- The five-bookmark performer-analysis scenario collection, all
uncategorized. -/
def performerScenario : List Bookmark :=
  [⟨"p1", "Riley Reid Scene 1", "Uncategorized", none, [], none, none, none⟩,
   ⟨"p2", "Riley Reid Scene 2", "Uncategorized", none, [], none, none, none⟩,
   ⟨"p3", "Riley Reid Scene 3", "Uncategorized", none, [], none, none, none⟩,
   ⟨"p4", "Amateur Couple Video", "Uncategorized", none, [], none, none, none⟩,
   ⟨"p5", "4K Premium Content", "Uncategorized", none, [], none, none, none⟩]

/-- A bookmark with rating 1. -/
def bRated : Bookmark := ⟨"u", "tt", "c", some 1, [], none, none, none⟩

/-- A bookmark with no rating. -/
def bUnrated : Bookmark := ⟨"u", "tt", "c", none, [], none, none, none⟩

/-- A bookmark with rating 5. -/
def bTopRated : Bookmark := ⟨"u2", "tt", "c", some 5, [], none, none, none⟩

/-- 1001 bookmarks of which one is unrated: sorting them by rating takes
the background path and compares None with an int. -/
def bigRatingColl : List Bookmark := bUnrated :: List.replicate 1000 bRated

/-- 1001 bookmarks whose first record has the strictly largest smart
score. -/
def bigSmartColl : List Bookmark := bTopRated :: List.replicate 1000 bRated

/-- The two bookmarks of the duplicate-detection scenario: the same page
behind a tracking parameter and a www/trailing-slash variant. -/
def dupBookmarkA : Bookmark :=
  ⟨"http://example.com/page?utm_source=x", "Title A", "c", none, [], none, none, none⟩

/-- Second bookmark of the duplicate-detection scenario. -/
def dupBookmarkB : Bookmark :=
  ⟨"https://www.example.com/page/", "Title B", "c", none, [], none, none, none⟩

/-- A two-bookmark shuffle state in which the first URL has been shown. -/
def shuffleDemoState : ShuffleState :=
  ⟨[⟨"u1", "t1", "c", none, [], none, none, none⟩,
    ⟨"u2", "t2", "c", none, [], none, none, none⟩], ["u1"]⟩

/-- The deterministic sampling function that takes a prefix; it satisfies
the random.sample contract (k elements, drawn without replacement from
the population). -/
def sampleTake : List Bookmark → Nat → List Bookmark := fun pop k => pop.take k

/-- The data-model constraint on ratings, as a boolean: absent or an
integer in 1..5. -/
def ratingValid (b : Bookmark) : Bool :=
  match b.rating with
  | none => true
  | some v => decide (1 ≤ v) && decide (v ≤ 5)

/-- A block lying inside the intervals [alo, ahi) x [blo, bhi). -/
def ValidBest (alo ahi blo bhi : Nat) (m : Best) : Prop :=
  alo ≤ m.i ∧ m.i + m.size ≤ ahi ∧ blo ≤ m.j ∧ m.j + m.size ≤ bhi

/-- Invariant of the j2len map entering iteration i of the dynamic
program: every recorded run ends inside [blo, bhi) and is no longer than
either available prefix. -/
def J2Inv (alo blo bhi i : Nat) (m : Nat → Nat) : Prop :=
  ∀ j, m j ≠ 0 → blo ≤ j ∧ j < bhi ∧ m j ≤ i - alo ∧ m j ≤ j + 1 - blo

/-! ## Lemmas: the matched total of SequenceMatcher is bounded -/

theorem innerLoop_valid : ∀ (js : List Nat) (old cur : Nat → Nat) (best : Best)
    (alo ahi i blo bhi : Nat), alo ≤ i → i < ahi →
    J2Inv alo blo bhi i old → J2Inv alo blo bhi (i + 1) cur →
    ValidBest alo ahi blo bhi best →
    J2Inv alo blo bhi (i + 1) (innerLoop old i blo bhi js cur best).1 ∧
      ValidBest alo ahi blo bhi (innerLoop old i blo bhi js cur best).2 := by
  intro js
  induction js with
  | nil =>
    intro old cur best alo ahi i blo bhi h1 h2 hold hcur hbest
    rw [innerLoop]
    exact ⟨hcur, hbest⟩
  | cons j js ih =>
    intro old cur best alo ahi i blo bhi h1 h2 hold hcur hbest
    rw [innerLoop]
    by_cases hjb : j < blo
    · rw [if_pos hjb]
      exact ih old cur best alo ahi i blo bhi h1 h2 hold hcur hbest
    · rw [if_neg hjb]
      by_cases hjh : bhi ≤ j
      · rw [if_pos hjh]
        exact ⟨hcur, hbest⟩
      · rw [if_neg hjh]
        dsimp only
        have hk : ((if j = 0 then 0 else old (j - 1)) + 1) ≤ i + 1 - alo ∧
            ((if j = 0 then 0 else old (j - 1)) + 1) ≤ j + 1 - blo := by
          by_cases hj0 : j = 0
          · rw [if_pos hj0]
            omega
          · rw [if_neg hj0]
            by_cases hp : old (j - 1) = 0
            · rw [hp]
              omega
            · have hb := hold (j - 1) hp
              omega
        apply ih
        · exact h1
        · exact h2
        · exact hold
        · intro x hx
          by_cases hxj : x = j
          · subst hxj
            simp only [if_pos rfl] at hx ⊢
            refine ⟨by omega, by omega, hk.1, hk.2⟩
          · simp only [if_neg hxj] at hx ⊢
            exact hcur x hx
        · by_cases hlt : best.size < (if j = 0 then 0 else old (j - 1)) + 1
          · rw [if_pos hlt]
            have hki : (if j = 0 then 0 else old (j - 1)) + 1 ≤ i + 1 - alo := hk.1
            have hkj : (if j = 0 then 0 else old (j - 1)) + 1 ≤ j + 1 - blo := hk.2
            simp only [ValidBest]
            refine ⟨by omega, by omega, by omega, by omega⟩
          · rw [if_neg hlt]
            exact hbest

theorem dpLoop_valid (a b : List Char) (alo ahi blo bhi : Nat) :
    ∀ (n s : Nat) (old : Nat → Nat) (best : Best), alo ≤ s → s + n ≤ ahi →
    J2Inv alo blo bhi s old → ValidBest alo ahi blo bhi best →
    ValidBest alo ahi blo bhi (dpLoop a b blo bhi (List.range' s n) old best) := by
  intro n
  induction n with
  | zero =>
    intro s old best h1 h2 hold hbest
    rw [List.range'_zero, dpLoop]
    exact hbest
  | succ n ih =>
    intro s old best h1 h2 hold hbest
    rw [List.range'_succ, dpLoop]
    have hstep := innerLoop_valid (b2j b (a.getD s ' ')) old (fun _ => 0) best alo ahi s blo bhi
      h1 (by omega) hold (by intro j hj; exact absurd rfl hj) hbest
    exact ih (s + 1) _ _ (by omega) (by omega) hstep.1 hstep.2

theorem extendLeft_valid (a b : List Char) (alo ahi blo bhi : Nat) :
    ∀ (fuel : Nat) (best : Best), ValidBest alo ahi blo bhi best →
    ValidBest alo ahi blo bhi (extendLeft a b alo blo fuel best) := by
  intro fuel
  induction fuel with
  | zero =>
    intro best hbest
    rw [extendLeft]
    exact hbest
  | succ fuel ih =>
    intro best hbest
    rw [extendLeft]
    by_cases hc : alo < best.i ∧ blo < best.j ∧
        a.getD (best.i - 1) ' ' = b.getD (best.j - 1) ' '
    · rw [if_pos hc]
      apply ih
      obtain ⟨hb1, hb2, hb3, hb4⟩ := hbest
      simp only [ValidBest]
      exact ⟨by omega, by omega, by omega, by omega⟩
    · rw [if_neg hc]
      exact hbest

theorem extendRight_valid (a b : List Char) (alo ahi blo bhi : Nat) :
    ∀ (fuel : Nat) (best : Best), ValidBest alo ahi blo bhi best →
    ValidBest alo ahi blo bhi (extendRight a b ahi bhi fuel best) := by
  intro fuel
  induction fuel with
  | zero =>
    intro best hbest
    rw [extendRight]
    exact hbest
  | succ fuel ih =>
    intro best hbest
    rw [extendRight]
    by_cases hc : best.i + best.size < ahi ∧ best.j + best.size < bhi ∧
        a.getD (best.i + best.size) ' ' = b.getD (best.j + best.size) ' '
    · rw [if_pos hc]
      apply ih
      obtain ⟨hb1, hb2, hb3, hb4⟩ := hbest
      simp only [ValidBest]
      exact ⟨by omega, by omega, by omega, by omega⟩
    · rw [if_neg hc]
      exact hbest

theorem findLongestMatch_valid (a b : List Char) (alo ahi blo bhi : Nat)
    (h1 : alo ≤ ahi) (h2 : blo ≤ bhi) :
    ValidBest alo ahi blo bhi (findLongestMatch a b alo ahi blo bhi) := by
  rw [findLongestMatch]
  apply extendRight_valid
  apply extendLeft_valid
  apply dpLoop_valid
  · exact Nat.le_refl alo
  · omega
  · intro j hj
    exact absurd rfl hj
  · simp only [ValidBest]
    omega

theorem matchTotal_le (a b : List Char) :
    ∀ (fuel alo ahi blo bhi : Nat), alo ≤ ahi → blo ≤ bhi →
    matchTotal a b fuel alo ahi blo bhi ≤ min (ahi - alo) (bhi - blo) := by
  intro fuel
  induction fuel with
  | zero =>
    intro alo ahi blo bhi h1 h2
    rw [matchTotal]
    omega
  | succ fuel ih =>
    intro alo ahi blo bhi h1 h2
    rw [matchTotal]
    have hv := findLongestMatch_valid a b alo ahi blo bhi h1 h2
    obtain ⟨hv1, hv2, hv3, hv4⟩ := hv
    by_cases hz : (findLongestMatch a b alo ahi blo bhi).size = 0
    · rw [if_pos hz]
      omega
    · rw [if_neg hz]
      have ihl := ih alo (findLongestMatch a b alo ahi blo bhi).i blo
        (findLongestMatch a b alo ahi blo bhi).j hv1 hv3
      have ihr := ih ((findLongestMatch a b alo ahi blo bhi).i +
          (findLongestMatch a b alo ahi blo bhi).size) ahi
        ((findLongestMatch a b alo ahi blo bhi).j +
          (findLongestMatch a b alo ahi blo bhi).size) bhi hv2 hv4
      omega

theorem ratioQ_nonneg (a b : List Char) : 0 ≤ ratioQ a b := by
  rw [ratioQ]
  by_cases h : a.length + b.length = 0
  · rw [if_pos h]
    norm_num
  · rw [if_neg h]
    positivity

theorem ratioQ_le_one (a b : List Char) : ratioQ a b ≤ 1 := by
  rw [ratioQ]
  by_cases h : a.length + b.length = 0
  · rw [if_pos h]
  · rw [if_neg h]
    have hm := matchTotal_le a b (a.length + 1) 0 a.length 0 b.length (by omega) (by omega)
    have hm2 : 2 * matchTotal a b (a.length + 1) 0 a.length 0 b.length ≤
        a.length + b.length := by omega
    rw [div_le_one (by positivity)]
    calc (2 : Rat) * (matchTotal a b (a.length + 1) 0 a.length 0 b.length : Rat)
        = ((2 * matchTotal a b (a.length + 1) 0 a.length 0 b.length : Nat) : Rat) := by
          push_cast
          ring
      _ ≤ ((a.length + b.length : Nat) : Rat) := by
          exact_mod_cast hm2
      _ = ((a.length + b.length : Nat) : Rat) := rfl

/-! ## Claim C6: the text similarity utility -/

/-- Claim C6, counterexample: the claim asserts that similarity returns
1.0 whenever the two strings match exactly case-insensitively and that
similarity(a, a) = 1 for every string a, but the empty-string
short-circuit of _fast_similarity_score fires first on the pair of empty
strings and returns 0.0. -/
theorem fastSimilarityScore_empty_counterexample :
    fastSimilarityScore ("") ("") = 0 ∧ ¬ fastSimilarityScore ("") ("") = 1 := by
  constructor
  · rfl
  · decide

/-- Claim C6, amended: for all strings a and b the similarity lies in
[0.0, 1.0]; it returns 0.0 whenever at least one of the strings is empty
(in particular when exactly one is); it returns 1.0 whenever the strings
match exactly case-insensitively and are nonempty; and similarity(a, a)
is 1 for every nonempty a (the two-empty-strings case returns 0.0, which
is the only correction to the claim). -/
theorem fastSimilarityScore_props (a b : String) :
    (0 ≤ fastSimilarityScore a b ∧ fastSimilarityScore a b ≤ 1) ∧
    ((a = "" ∨ b = "") → fastSimilarityScore a b = 0) ∧
    (¬ a = "" → lowerList a.data = lowerList b.data → fastSimilarityScore a b = 1) ∧
    (¬ a = "" → fastSimilarityScore a a = 1) := by
  have hone : ∀ (x y : String), ¬ x = "" → lowerList x.data = lowerList y.data →
      fastSimilarityScore x y = 1 := by
    intro x y hx hl
    have hnx : x.data ≠ [] := by
      intro hh
      exact hx (String.ext hh)
    have hlen : x.data.length = y.data.length := by
      have := congrArg List.length hl
      simpa [lowerList] using this
    have hny : y.data ≠ [] := by
      intro hh
      apply hnx
      apply List.eq_nil_of_length_eq_zero
      rw [hh, List.length_nil] at hlen
      exact hlen
    rw [fastSimilarityScore]
    rw [if_neg]
    · rw [if_pos hl]
    · simp [List.isEmpty_iff, hnx, hny]
  refine ⟨?_, ?_, hone a b, fun ha => hone a a ha rfl⟩
  · rw [fastSimilarityScore]
    dsimp only
    split_ifs with h1 h2 h3
    · norm_num
    · norm_num
    · norm_num
    · exact ⟨ratioQ_nonneg _ _, ratioQ_le_one _ _⟩
  · intro h
    rw [fastSimilarityScore]
    rcases h with h | h
    · subst h
      rw [if_pos]
      rfl
    · subst h
      rw [if_pos]
      simp

/-- Witness for the amended claim C6 at concrete strings. -/
theorem fastSimilarityScore_props_witness :
    (0 ≤ fastSimilarityScore ("abc") ("ignored") ∧ fastSimilarityScore ("abc") ("ignored") ≤ 1) ∧
    fastSimilarityScore ("") ("xyz") = 0 ∧
    fastSimilarityScore ("aBc") ("Abc") = 1 ∧
    fastSimilarityScore ("abc") ("abc") = 1 :=
  ⟨(fastSimilarityScore_props ("abc") ("ignored")).1,
   (fastSimilarityScore_props ("") ("xyz")).2.1 (Or.inl rfl),
   (fastSimilarityScore_props ("aBc") ("Abc")).2.2.1 (by decide) (by decide),
   (fastSimilarityScore_props ("abc") ("abc")).2.2.2 (by decide)⟩

/-! ## Claim C7: domain extraction -/

theorem leadMatch_append_self (p s : List Char) : leadMatch p (p ++ s) = true := by
  induction p with
  | nil => rfl
  | cons c cs ih => simp [leadMatch, ih]

theorem removeSubAux_fuel_irrel (p : Char) (ps : List Char) :
    ∀ (f1 f2 : Nat) (l : List Char), l.length ≤ f1 → l.length ≤ f2 →
    removeSubAux p ps f1 l = removeSubAux p ps f2 l := by
  intro f1
  induction f1 with
  | zero =>
    intro f2 l h1 h2
    have : l = [] := List.eq_nil_of_length_eq_zero (by omega)
    subst this
    rw [removeSubAux, removeSubAux]
  | succ f1 ih =>
    intro f2 l h1 h2
    cases l with
    | nil => rw [removeSubAux, removeSubAux]
    | cons c cs =>
      cases f2 with
      | zero => simp at h2
      | succ f2 =>
        rw [removeSubAux, removeSubAux]
        by_cases hc : leadMatch (p :: ps) (c :: cs) = true
        · rw [if_pos hc, if_pos hc]
          apply ih
          · have := (List.drop_sublist ps.length cs).length_le
            simp only [List.length_cons] at h1
            omega
          · have := (List.drop_sublist ps.length cs).length_le
            simp only [List.length_cons] at h2
            omega
        · rw [if_neg hc, if_neg hc]
          have he : removeSubAux p ps f1 cs = removeSubAux p ps f2 cs := by
            apply ih
            · simp only [List.length_cons] at h1
              omega
            · simp only [List.length_cons] at h2
              omega
          rw [he]

theorem removeSubAux_of_not_sub (p : Char) (ps : List Char) :
    ∀ (l : List Char) (fuel : Nat), subMatch (p :: ps) l = false →
    removeSubAux p ps fuel l = l := by
  intro l
  induction l with
  | nil =>
    intro fuel _
    rw [removeSubAux]
  | cons c cs ih =>
    intro fuel h
    rw [subMatch, Bool.or_eq_false_iff] at h
    cases fuel with
    | zero =>
      rw [removeSubAux]
      simp
    | succ fuel =>
      rw [removeSubAux]
      rw [if_neg (by simp [h.1])]
      rw [ih fuel h.2]

theorem removeSub_append_self (pat l : List Char) :
    removeSub pat (pat ++ l) = removeSub pat l := by
  cases pat with
  | nil => rfl
  | cons p ps =>
    show removeSubAux p ps ((p :: ps) ++ l).length ((p :: ps) ++ l) =
      removeSubAux p ps l.length l
    have hlen : ((p :: ps) ++ l).length = (ps ++ l).length + 1 := by simp
    rw [hlen, List.cons_append, removeSubAux]
    rw [if_pos (show leadMatch (p :: ps) (p :: (ps ++ l)) = true from
      leadMatch_append_self (p :: ps) l)]
    rw [List.drop_left]
    apply removeSubAux_fuel_irrel <;> simp

theorem removeSub_of_not_sub (pat l : List Char) (h : subMatch pat l = false) :
    removeSub pat l = l := by
  cases pat with
  | nil => rfl
  | cons p ps => exact removeSubAux_of_not_sub p ps l l.length h

/-- Claim C7, counterexample: on "http://WWW.Example.com/x" the claimed
behavior (hostname lowercased, leading "www." stripped) would produce
"example.com", but the code replaces the case-sensitive substring "www."
before lowercasing, so the uppercase WWW. survives and the result is
"www.example.com". -/
theorem cachedDomainExtraction_counterexample :
    cachedDomainExtraction ("http://WWW.Example.com/x") = "www.example.com" ∧
    ¬ cachedDomainExtraction ("http://WWW.Example.com/x") = "example.com" := by
  constructor
  · decide
  · decide

/-- leadMatch with the pattern "www." against a text of length at least
four is decided by the first four characters. -/
theorem leadMatch_www_cons (a b c d : Char) (r : List Char) :
    leadMatch ("www.".data) (a :: b :: c :: d :: r) =
      (('w' == a) && (('w' == b) && (('w' == c) && ('.' == d)))) := by
  have hw : ("www.".data) = ['w', 'w', 'w', '.'] := by decide
  rw [hw]
  simp [leadMatch]

/-- The pattern "www." has no nonempty border, so no match can start
strictly inside a www.-free prefix p and reach into a following literal
"www.": the fourth character such a window reads is a w where the
pattern requires the dot. -/
theorem leadMatch_www_boundary (p t : List Char)
    (h : subMatch ("www.".data) p = false) (hne : ¬ p = []) :
    leadMatch ("www.".data) (p ++ ("www.".data) ++ t) = false := by
  have hw : ("www.".data) = ['w', 'w', 'w', '.'] := by decide
  rcases p with _ | ⟨a, _ | ⟨b, _ | ⟨c, _ | ⟨d, rest⟩⟩⟩⟩
  · exact absurd rfl hne
  · rw [hw]
    simp [leadMatch]
  · rw [hw]
    simp [leadMatch]
  · rw [hw]
    simp [leadMatch]
  · have h1 : leadMatch ("www.".data) (a :: b :: c :: d :: rest) = false := by
      rw [subMatch] at h
      exact (Bool.or_eq_false_iff.mp h).1
    rw [leadMatch_www_cons] at h1
    show leadMatch ("www.".data) (a :: b :: c :: d :: ((rest ++ ("www.".data)) ++ t)) = false
    rw [leadMatch_www_cons]
    exact h1

/-- Removing "www." from a list that does not start with it keeps the
head character. -/
theorem removeSub_cons_of_not_lead (a : Char) (l : List Char)
    (h : leadMatch ("www.".data) (a :: l) = false) :
    removeSub ("www.".data) (a :: l) = a :: removeSub ("www.".data) l := by
  have hw : ("www.".data) = ['w', 'w', 'w', '.'] := by decide
  rw [hw] at h ⊢
  show removeSubAux 'w' ['w', 'w', '.'] (a :: l).length (a :: l) =
    a :: removeSubAux 'w' ['w', 'w', '.'] l.length l
  rw [List.length_cons, removeSubAux]
  rw [if_neg (by simp [h])]

/-- str.replace("www.", "") removes every occurrence, scanning left to
right without rescanning: across any www.-free prefix the scan keeps the
prefix, consumes the following literal "www." and continues behind it. -/
theorem removeSub_www_boundary (p t : List Char) :
    subMatch ("www.".data) p = false →
    removeSub ("www.".data) (p ++ ("www.".data) ++ t) =
      p ++ removeSub ("www.".data) t := by
  induction p with
  | nil =>
    intro _
    simpa using removeSub_append_self ("www.".data) t
  | cons a q ih =>
    intro h
    have hq : subMatch ("www.".data) q = false := by
      rw [subMatch] at h
      exact (Bool.or_eq_false_iff.mp h).2
    have hlead : leadMatch ("www.".data) ((a :: q) ++ ("www.".data) ++ t) = false :=
      leadMatch_www_boundary (a :: q) t h (by simp)
    show removeSub ("www.".data) (a :: ((q ++ ("www.".data)) ++ t)) =
      a :: (q ++ removeSub ("www.".data) t)
    rw [removeSub_cons_of_not_lead a ((q ++ ("www.".data)) ++ t) hlead]
    rw [ih hq]

/-- Claim C7, amended: the operation removes every occurrence of the
case-sensitive substring "www." from the urlparse netloc (scanning left
to right without rescanning, as str.replace does) and then lowercases
the remainder; so a netloc containing no "www." — an uppercase "WWW."
prefix included — is returned lowercased with nothing stripped, a netloc
that is "www." followed by a suffix free of further "www." yields that
suffix lowercased (the claimed behavior), interior occurrences are
removed as well, and a URL without a parseable network location yields
the empty string rather than an error. -/
theorem cachedDomainExtraction_props (url s : String) :
    (pyNetloc url = "" → cachedDomainExtraction url = "") ∧
    (subMatch ("www.".data) (pyNetloc url).data = false →
      cachedDomainExtraction url = strLower (pyNetloc url)) ∧
    (pyNetloc url = "www." ++ s → subMatch ("www.".data) s.data = false →
      cachedDomainExtraction url = strLower s) ∧
    (∀ p t : List Char, subMatch ("www.".data) p = false →
      removeSub ("www.".data) (p ++ ("www.".data) ++ t) =
        p ++ removeSub ("www.".data) t) ∧
    cachedDomainExtraction ("http://www.xwww.y/z") = "xy" := by
  refine ⟨?_, ?_, ?_, fun p t h => removeSub_www_boundary p t h, by decide⟩
  · intro h
    have hd : netlocList url.data = [] := congrArg String.data h
    rw [cachedDomainExtraction, hd]
    decide
  · intro h
    rw [cachedDomainExtraction,
      removeSub_of_not_sub ("www.".data) (netlocList url.data) h]
    rfl
  · intro h h2
    have hd : netlocList url.data = ("www.".data) ++ s.data := by
      have := congrArg String.data h
      simpa [pyNetloc, String.data_append] using this
    rw [cachedDomainExtraction, hd]
    rw [removeSub_append_self, removeSub_of_not_sub _ _ h2]

/-- Witness for the amended claim C7 at concrete inputs: a leading
lowercase "www." is stripped, an uppercase "WWW." netloc is untouched by
the replace and only lowercased, and the left-to-right removal step at a
concrete www.-free prefix and tail. -/
theorem cachedDomainExtraction_props_witness :
    pyNetloc ("https://www.example.com/page") = "www." ++ "example.com" ∧
    subMatch ("www.".data) ("example.com" : String).data = false ∧
    cachedDomainExtraction ("https://www.example.com/page") = strLower ("example.com") ∧
    cachedDomainExtraction ("http://WWW.Example.com/x") =
      strLower (pyNetloc ("http://WWW.Example.com/x")) ∧
    removeSub ("www.".data) (("x" : String).data ++ ("www.".data) ++ ("y" : String).data) =
      ("x" : String).data ++ removeSub ("www.".data) ("y" : String).data :=
  ⟨by decide, by decide,
   (cachedDomainExtraction_props ("https://www.example.com/page") ("example.com")).2.2.1
     (by decide) (by decide),
   (cachedDomainExtraction_props ("http://WWW.Example.com/x") ("")).2.1 (by decide),
   (cachedDomainExtraction_props ("") ("")).2.2.2.1 (("x" : String).data)
     (("y" : String).data) (by decide)⟩

/-! ## Claim C8: duplicate detection phase 1 -/

/-- Claim C8: on the two bookmarks with URLs
"http://example.com/page?utm_source=x" and
"https://www.example.com/page/", both URLs normalize to
"example.com/page", so phase 1 of find_duplicates flags exactly that pair
with the reason "Exact URL match". -/
theorem findDuplicatesPhase1_scenario :
    normalizeUrl dupBookmarkA.url = "example.com/page" ∧
    normalizeUrl dupBookmarkB.url = "example.com/page" ∧
    findDuplicatesPhase1 [dupBookmarkA, dupBookmarkB] =
      [(dupBookmarkA, dupBookmarkB, "Exact URL match")] := by
  refine ⟨by decide, by decide, by decide⟩

/-! ## Claim C4: the performer-analysis scenario -/

/-- Claim C4, counterexample: on the five-bookmark scenario collection
the performer analysis emits two suggestions, not exactly one: the
capitalized-word-pair heuristic extracts both "Riley Reid" and
"Reid Scene" from each of the first three titles. -/
theorem analyzeByPerformers_scenario_counterexample :
    (analyzeByPerformers performerScenario).length = 2 ∧
    ¬ (analyzeByPerformers performerScenario).length = 1 := by
  refine ⟨by decide, by decide⟩

/-- Every suggestion emitted by the performer analysis has confidence
min(0.95, n/5) for its own group size n, and its group has size at
least 3. -/
theorem mem_analyzeByPerformers (bs : List Bookmark) (sg : Suggestion)
    (h : sg ∈ analyzeByPerformers bs) :
    sg.confidence = min (0.95 : Rat) ((sg.bookmarks.length : Rat) / 5) ∧
      3 ≤ sg.bookmarks.length := by
  rw [analyzeByPerformers] at h
  generalize performerGroups bs = gs at h
  induction gs with
  | nil => cases h
  | cons g gs ih =>
    rw [List.foldr_cons] at h
    by_cases h3 : 3 ≤ g.2.length
    · rw [if_pos h3] at h
      rcases List.mem_cons.mp h with he | hm
      · subst he
        exact ⟨rfl, h3⟩
      · exact ih hm
    · rw [if_neg h3] at h
      exact ih h

/-- Claim C4, amended: on the five-bookmark scenario collection the
performer analysis emits exactly two suggestions; one has category
"Riley Reid" and one has category "Reid Scene" (an artifact of the
capitalized-word-pair heuristic), and each covers exactly the first three
records with confidence min(0.95, 3/5) = 0.6. -/
theorem analyzeByPerformers_scenario :
    (analyzeByPerformers performerScenario).length = 2 ∧
    (∃ sg ∈ analyzeByPerformers performerScenario,
      sg.category = "Riley Reid" ∧ sg.bookmarks = performerScenario.take 3 ∧
        sg.confidence = 3 / 5) ∧
    (∃ sg ∈ analyzeByPerformers performerScenario,
      sg.category = "Reid Scene" ∧ sg.bookmarks = performerScenario.take 3 ∧
        sg.confidence = 3 / 5) := by
  have hconf : ∀ sg ∈ analyzeByPerformers performerScenario,
      sg.bookmarks = performerScenario.take 3 → sg.confidence = 3 / 5 := by
    intro sg hmem hb
    have hc := (mem_analyzeByPerformers performerScenario sg hmem).1
    rw [hb] at hc
    have hlen : (performerScenario.take 3).length = 3 := by decide
    rw [hlen] at hc
    rw [hc]
    norm_num
  refine ⟨by decide, ?_, ?_⟩
  · have hex : ∃ sg ∈ analyzeByPerformers performerScenario,
        sg.category = "Riley Reid" ∧ sg.bookmarks = performerScenario.take 3 := by decide
    obtain ⟨sg, hmem, hcat, hb⟩ := hex
    exact ⟨sg, hmem, hcat, hb, hconf sg hmem hb⟩
  · have hex : ∃ sg ∈ analyzeByPerformers performerScenario,
        sg.category = "Reid Scene" ∧ sg.bookmarks = performerScenario.take 3 := by decide
    obtain ⟨sg, hmem, hcat, hb⟩ := hex
    exact ⟨sg, hmem, hcat, hb, hconf sg hmem hb⟩

/-! ## Sublist lemmas for the filter pipeline -/

theorem stageCategories_self (f : SearchFilter) (bs : List Bookmark) :
    List.Sublist (stageCategories f bs) bs := by
  rw [stageCategories]
  split_ifs
  · exact List.Sublist.refl bs
  · exact List.filter_sublist bs

theorem stageCategories_mono (f : SearchFilter) {bs bs' : List Bookmark}
    (h : List.Sublist bs bs') :
    List.Sublist (stageCategories f bs) (stageCategories f bs') := by
  rw [stageCategories, stageCategories]
  split_ifs
  · exact h
  · exact h.filter _

theorem stageMinRating_self (f : SearchFilter) (bs : List Bookmark) :
    List.Sublist (stageMinRating f bs) bs := by
  rw [stageMinRating]
  cases f.minRating
  · exact List.Sublist.refl bs
  · exact List.filter_sublist bs

theorem stageMinRating_mono (f : SearchFilter) {bs bs' : List Bookmark}
    (h : List.Sublist bs bs') :
    List.Sublist (stageMinRating f bs) (stageMinRating f bs') := by
  rw [stageMinRating, stageMinRating]
  cases f.minRating
  · exact h
  · exact h.filter _

theorem stageMaxRating_self (f : SearchFilter) (bs : List Bookmark) :
    List.Sublist (stageMaxRating f bs) bs := by
  rw [stageMaxRating]
  cases f.maxRating
  · exact List.Sublist.refl bs
  · exact List.filter_sublist bs

theorem stageMaxRating_mono (f : SearchFilter) {bs bs' : List Bookmark}
    (h : List.Sublist bs bs') :
    List.Sublist (stageMaxRating f bs) (stageMaxRating f bs') := by
  rw [stageMaxRating, stageMaxRating]
  cases f.maxRating
  · exact h
  · exact h.filter _

theorem stageDomains_self (f : SearchFilter) (bs : List Bookmark) :
    List.Sublist (stageDomains f bs) bs := by
  rw [stageDomains]
  split_ifs
  · exact List.Sublist.refl bs
  · exact List.filter_sublist bs

theorem stageDomains_mono (f : SearchFilter) {bs bs' : List Bookmark}
    (h : List.Sublist bs bs') :
    List.Sublist (stageDomains f bs) (stageDomains f bs') := by
  rw [stageDomains, stageDomains]
  split_ifs
  · exact h
  · exact h.filter _

theorem stageTags_self (f : SearchFilter) (bs : List Bookmark) :
    List.Sublist (stageTags f bs) bs := by
  rw [stageTags]
  split_ifs
  · exact List.Sublist.refl bs
  · exact List.filter_sublist bs

theorem stageTags_mono (f : SearchFilter) {bs bs' : List Bookmark}
    (h : List.Sublist bs bs') :
    List.Sublist (stageTags f bs) (stageTags f bs') := by
  rw [stageTags, stageTags]
  split_ifs
  · exact h
  · exact h.filter _

theorem stageDate_self (f : SearchFilter) (bs : List Bookmark) :
    List.Sublist (stageDate f bs) bs := by
  rw [stageDate]
  split_ifs
  · exact List.filter_sublist bs
  · exact List.Sublist.refl bs

theorem stageDate_mono (f : SearchFilter) {bs bs' : List Bookmark}
    (h : List.Sublist bs bs') :
    List.Sublist (stageDate f bs) (stageDate f bs') := by
  rw [stageDate, stageDate]
  split_ifs
  · exact h.filter _
  · exact h

theorem applyFilters_mono (f : SearchFilter) {bs bs' : List Bookmark}
    (h : List.Sublist bs bs') :
    List.Sublist (applyFilters f bs) (applyFilters f bs') := by
  rw [applyFilters, applyFilters]
  exact stageDate_mono f (stageTags_mono f (stageDomains_mono f
    (stageMaxRating_mono f (stageMinRating_mono f (stageCategories_mono f h)))))

theorem indexSearch_sublist (bs : List Bookmark) (q : String) :
    List.Sublist (indexSearch bs q) bs := by
  rw [indexSearch]
  split_ifs
  · exact List.nil_sublist bs
  · have hgen : ∀ (ws : List (List Char)) (res : List Bookmark), List.Sublist res bs →
        List.Sublist (List.foldl (fun res w =>
          let hw := bs.filter (fun b => tokenHit w b)
          if res.isEmpty then hw else res.filter (fun b => hw.contains b)) res ws) bs := by
      intro ws
      induction ws with
      | nil =>
        intro res hres
        exact hres
      | cons w ws ih =>
        intro res hres
        rw [List.foldl_cons]
        apply ih
        dsimp only
        split_ifs
        · exact List.filter_sublist bs
        · exact (List.filter_sublist res).trans hres
    exact hgen _ [] (List.nil_sublist bs)

theorem advancedSearchBase_sublist (rm : String → String → Bool) (m : Manager)
    (f : SearchFilter) : List.Sublist (advancedSearchBase rm m f) m.bookmarks := by
  rw [advancedSearchBase]
  dsimp only
  split_ifs
  all_goals first
    | exact List.Sublist.refl _
    | exact indexSearch_sublist _ _
    | exact List.filter_sublist _

theorem advancedSearchBase_empty_query (rm : String → String → Bool) (m : Manager)
    (f : SearchFilter) (h : f.query = "") : advancedSearchBase rm m f = m.bookmarks := by
  rw [advancedSearchBase]
  dsimp only
  rw [if_neg (by simp [h]), if_neg (by simp [h])]

/-! ## Claim C2: the rating filter on an empty query -/

/-- Claim C2: with an empty text query and only min_rating set to r,
advanced_search returns exactly the bookmarks whose rating is present and
at least r, in their original relative order (a record with no rating
fails the test); and with the all-default filter no record is excluded.
The data-model constraint that present ratings lie in 1..5 is assumed
(Python truthiness makes a rating of 0, outside the model, also fail the
test). -/
theorem advancedSearch_minRating_filter (rm : String → String → Bool) (m : Manager) (r : Int)
    (hval : ∀ b ∈ m.bookmarks, ratingValid b = true) :
    advancedSearch rm m { defaultFilter with minRating := some r } =
      m.bookmarks.filter (fun b =>
        match b.rating with
        | some v => decide (r ≤ v)
        | none => false) ∧
    advancedSearch rm m defaultFilter = m.bookmarks := by
  constructor
  · rw [advancedSearch, advancedSearchBase_empty_query rm m _ rfl]
    rw [applyFilters]
    simp only [stageCategories, stageMinRating, stageMaxRating, stageDomains, stageTags,
      stageDate, defaultFilter]
    simp only [List.isEmpty_nil, if_true, Option.isSome_none, Bool.or_self, Bool.false_eq_true,
      if_false]
    apply List.filter_congr
    intro b hb
    have hv := hval b hb
    rw [ratingValid] at hv
    cases hrat : b.rating with
    | none => simp [ratingTruthy, hrat]
    | some v =>
      rw [hrat] at hv
      simp only [Bool.and_eq_true, decide_eq_true_eq] at hv
      have hvz : ¬ v = 0 := by omega
      simp [ratingTruthy, ratingVal, hrat, hvz]
  · rw [advancedSearch, advancedSearchBase_empty_query rm m _ rfl]
    rw [applyFilters]
    simp [stageCategories, stageMinRating, stageMaxRating, stageDomains, stageTags,
      stageDate, defaultFilter]

/-- Witness for claim C2: the ten-bookmark scenario with min_rating 4
(exactly two records qualify). -/
theorem advancedSearch_minRating_filter_witness :
    (∀ b ∈ scenarioMgr.bookmarks, ratingValid b = true) ∧
    advancedSearch rmNone scenarioMgr { defaultFilter with minRating := some 4 } =
      scenarioMgr.bookmarks.filter (fun b =>
        match b.rating with
        | some v => decide ((4 : Int) ≤ v)
        | none => false) :=
  ⟨by decide, (advancedSearch_minRating_filter rmNone scenarioMgr 4 (by decide)).1⟩

/-! ## Claim C3: filter monotonicity -/

/-- Claim C3: activating any one additional filter predicate on a
SearchFilter (a category restriction, a rating bound, a tag, a domain
substring, a date bound, or a non-empty text query) never increases the
number of bookmarks returned by advanced_search. -/
theorem advancedSearch_activation_monotone (rm : String → String → Bool) (m : Manager)
    (f f' : SearchFilter) (h : ActivatesOne f f') :
    (advancedSearch rm m f').length ≤ (advancedSearch rm m f).length := by
  cases h with
  | category cs hcat hcs =>
    apply List.Sublist.length_le
    have h2 : stageCategories f (advancedSearchBase rm m f) = advancedSearchBase rm m f := by
      rw [stageCategories, hcat]
      simp
    show List.Sublist
      (stageDate f (stageTags f (stageDomains f (stageMaxRating f (stageMinRating f
        (stageCategories { f with categories := cs } (advancedSearchBase rm m f)))))))
      (stageDate f (stageTags f (stageDomains f (stageMaxRating f (stageMinRating f
        (stageCategories f (advancedSearchBase rm m f)))))))
    apply stageDate_mono
    apply stageTags_mono
    apply stageDomains_mono
    apply stageMaxRating_mono
    apply stageMinRating_mono
    rw [h2]
    exact stageCategories_self _ _
  | minRating r hmin =>
    apply List.Sublist.length_le
    have h2 : stageMinRating f (stageCategories f (advancedSearchBase rm m f)) =
        stageCategories f (advancedSearchBase rm m f) := by
      rw [stageMinRating, hmin]
    show List.Sublist
      (stageDate f (stageTags f (stageDomains f (stageMaxRating f
        (stageMinRating { f with minRating := some r }
          (stageCategories f (advancedSearchBase rm m f)))))))
      (stageDate f (stageTags f (stageDomains f (stageMaxRating f
        (stageMinRating f (stageCategories f (advancedSearchBase rm m f)))))))
    apply stageDate_mono
    apply stageTags_mono
    apply stageDomains_mono
    apply stageMaxRating_mono
    rw [h2]
    exact stageMinRating_self _ _
  | maxRating r hmax =>
    apply List.Sublist.length_le
    have h2 : stageMaxRating f (stageMinRating f (stageCategories f
        (advancedSearchBase rm m f))) =
        stageMinRating f (stageCategories f (advancedSearchBase rm m f)) := by
      rw [stageMaxRating, hmax]
    show List.Sublist
      (stageDate f (stageTags f (stageDomains f
        (stageMaxRating { f with maxRating := some r }
          (stageMinRating f (stageCategories f (advancedSearchBase rm m f)))))))
      (stageDate f (stageTags f (stageDomains f
        (stageMaxRating f (stageMinRating f (stageCategories f
          (advancedSearchBase rm m f)))))))
    apply stageDate_mono
    apply stageTags_mono
    apply stageDomains_mono
    rw [h2]
    exact stageMaxRating_self _ _
  | domain ds hdom hds =>
    apply List.Sublist.length_le
    have h2 : stageDomains f (stageMaxRating f (stageMinRating f (stageCategories f
        (advancedSearchBase rm m f)))) =
        stageMaxRating f (stageMinRating f (stageCategories f
          (advancedSearchBase rm m f))) := by
      rw [stageDomains, hdom]
      simp
    show List.Sublist
      (stageDate f (stageTags f
        (stageDomains { f with domains := ds }
          (stageMaxRating f (stageMinRating f (stageCategories f
            (advancedSearchBase rm m f)))))))
      (stageDate f (stageTags f
        (stageDomains f (stageMaxRating f (stageMinRating f (stageCategories f
          (advancedSearchBase rm m f)))))))
    apply stageDate_mono
    apply stageTags_mono
    rw [h2]
    exact stageDomains_self _ _
  | tag ts htag hts =>
    apply List.Sublist.length_le
    have h2 : stageTags f (stageDomains f (stageMaxRating f (stageMinRating f
        (stageCategories f (advancedSearchBase rm m f))))) =
        stageDomains f (stageMaxRating f (stageMinRating f (stageCategories f
          (advancedSearchBase rm m f)))) := by
      rw [stageTags, htag]
      simp
    show List.Sublist
      (stageDate f
        (stageTags { f with tags := ts }
          (stageDomains f (stageMaxRating f (stageMinRating f (stageCategories f
            (advancedSearchBase rm m f)))))))
      (stageDate f
        (stageTags f (stageDomains f (stageMaxRating f (stageMinRating f
          (stageCategories f (advancedSearchBase rm m f)))))))
    apply stageDate_mono
    rw [h2]
    exact stageTags_self _ _
  | dateFrom d hdf =>
    apply List.Sublist.length_le
    show List.Sublist
      (stageDate { f with dateFrom := some d }
        (stageTags f (stageDomains f (stageMaxRating f (stageMinRating f
          (stageCategories f (advancedSearchBase rm m f)))))))
      (stageDate f
        (stageTags f (stageDomains f (stageMaxRating f (stageMinRating f
          (stageCategories f (advancedSearchBase rm m f)))))))
    generalize stageTags f (stageDomains f (stageMaxRating f (stageMinRating f
      (stageCategories f (advancedSearchBase rm m f))))) = Z
    cases hdt : f.dateTo with
    | none =>
      have h2 : stageDate f Z = Z := by
        rw [stageDate]
        rw [if_neg (by simp [hdf, hdt])]
      rw [h2]
      exact stageDate_self _ _
    | some hi =>
      rw [stageDate, stageDate]
      rw [if_pos (by simp), if_pos (by simp [hdt])]
      apply List.monotone_filter_right
      intro b hb
      cases hda : b.dateAdded with
      | none => simp [hda] at hb
      | some dd =>
        simp only [hda] at hb ⊢
        rw [hdf]
        simp only [hdt] at hb ⊢
        simp only [Bool.and_eq_true] at hb
        simp [hb.2]
        have h3 : ¬ hi < dd := by simpa using hb.2
        omega
  | dateTo d hdt =>
    apply List.Sublist.length_le
    show List.Sublist
      (stageDate { f with dateTo := some d }
        (stageTags f (stageDomains f (stageMaxRating f (stageMinRating f
          (stageCategories f (advancedSearchBase rm m f)))))))
      (stageDate f
        (stageTags f (stageDomains f (stageMaxRating f (stageMinRating f
          (stageCategories f (advancedSearchBase rm m f)))))))
    generalize stageTags f (stageDomains f (stageMaxRating f (stageMinRating f
      (stageCategories f (advancedSearchBase rm m f))))) = Z
    cases hdf : f.dateFrom with
    | none =>
      have h2 : stageDate f Z = Z := by
        rw [stageDate]
        rw [if_neg (by simp [hdf, hdt])]
      rw [h2]
      exact stageDate_self _ _
    | some lo =>
      rw [stageDate, stageDate]
      rw [if_pos (by simp), if_pos (by simp [hdf])]
      apply List.monotone_filter_right
      intro b hb
      cases hda : b.dateAdded with
      | none => simp [hda] at hb
      | some dd =>
        simp only [hda] at hb ⊢
        rw [hdt]
        simp only [hdf] at hb ⊢
        simp only [Bool.and_eq_true] at hb
        simp [hb.1]
        have h3 : ¬ dd < lo := by simpa using hb.1
        omega
  | query q hq hq2 =>
    apply List.Sublist.length_le
    show List.Sublist
      (applyFilters f (advancedSearchBase rm m { f with query := q }))
      (applyFilters f (advancedSearchBase rm m f))
    rw [advancedSearchBase_empty_query rm m f hq]
    exact applyFilters_mono f (advancedSearchBase_sublist rm m { f with query := q })

/-- Witness for claim C3: activating a minimum-rating bound on the
default filter over the scenario collection. -/
theorem advancedSearch_activation_monotone_witness :
    (advancedSearch rmNone scenarioMgr { defaultFilter with minRating := some 3 }).length ≤
      (advancedSearch rmNone scenarioMgr defaultFilter).length :=
  advancedSearch_activation_monotone rmNone scenarioMgr defaultFilter
    { defaultFilter with minRating := some 3 }
    (ActivatesOne.minRating defaultFilter 3 rfl)

/-! ## Claim C1: indexed search versus the linear scan -/

theorem ratioQ_eq (a b : List Char) (M la lb : Nat) (hla : a.length = la)
    (hlb : b.length = lb) (hM : matchTotal a b (a.length + 1) 0 a.length 0 b.length = M)
    (h0 : ¬ la + lb = 0) :
    ratioQ a b = 2 * (M : Rat) / ((la + lb : Nat) : Rat) := by
  rw [ratioQ]
  rw [hM, hla, hlb, if_neg h0]

theorem textMatch_eq_fuzzy (rm : String → String → Bool) (f : SearchFilter) (b : Bookmark)
    (hcase : f.caseSensitive = false) (hre : f.regexEnabled = false)
    (hsub : subMatch (strLower f.query).data (strLower (searchText b)).data = false) :
    textMatch rm f b =
      decide (f.fuzzyThreshold ≤ ratioQ (strLower f.query).data (lowerList b.title.data)) := by
  rw [textMatch]
  simp [hcase, hre, hsub]

/-- Claim C1, counterexample: on the 51-bookmark collection with a built
index a query of "cat" finds no index token ("cat" occurs only inside the
token "concatenate"), so the indexed path falls back to the whole
collection and advanced_search returns every bookmark, including the
filler bookmark titled "aaa"; the linear text search (fuzzy fallback
included) returns only the "concatenate" bookmark, so the indexed result
is not the linear result minus fuzzy-only matches. -/
theorem advancedSearch_indexed_counterexample :
    demoDummy ∈ advancedSearch rmNone demoMgr demoQueryFilter ∧
    demoDummy ∉ textSearch rmNone demoQueryFilter demoMgr.bookmarks := by
  have hpd : textMatch rmNone demoQueryFilter demoDummy = false := by
    rw [textMatch_eq_fuzzy rmNone demoQueryFilter demoDummy (by decide) (by decide) (by decide)]
    apply decide_eq_false
    have he1 : demoQueryFilter.fuzzyThreshold = 3 / 5 := rfl
    have he2 : (strLower demoQueryFilter.query).data = "cat".data := by decide
    have he3 : lowerList demoDummy.title.data = "aaa".data := by decide
    rw [he1, he2, he3,
      ratioQ_eq ("cat".data) ("aaa".data) 1 3 3 (by decide) (by decide) (by decide) (by decide)]
    norm_num
  have hpc : textMatch rmNone demoQueryFilter demoCat = true := by decide
  have hlist : textSearch rmNone demoQueryFilter demoMgr.bookmarks = [demoCat] := by
    show List.filter (textMatch rmNone demoQueryFilter) (List.replicate 50 demoDummy ++ [demoCat]) =
      [demoCat]
    rw [List.filter_append, List.filter_replicate, hpd]
    simp [hpc]
  constructor
  · decide
  · rw [hlist]
    decide

/-- Claim C1, amended: with a nonempty query, indexing enabled, a built
index and more than 50 records, advanced_search does not reproduce the
linear scan minus fuzzy-only matches; instead it applies the non-query
filters to the result of the index search — a sublist of the collection
— and, whenever that index search returns no bookmark, it falls back to
the entire collection, so records the linear scan rejects can be
returned. -/
theorem advancedSearch_indexed_path (rm : String → String → Bool) (m : Manager)
    (f : SearchFilter) (hq : ¬ f.query = "") (hu : m.useIndexing = true)
    (hb : m.indexBuilt = true) (hn : 50 < m.bookmarks.length) :
    advancedSearch rm m f =
      applyFilters f
        (if (indexSearch m.bookmarks f.query).isEmpty then m.bookmarks
         else indexSearch m.bookmarks f.query) ∧
    List.Sublist (indexSearch m.bookmarks f.query) m.bookmarks := by
  constructor
  · rw [advancedSearch, advancedSearchBase]
    dsimp only
    rw [if_pos ⟨hq, hu, hb, hn⟩]
  · exact indexSearch_sublist _ _

/-- Witness for the amended claim C1 on the 51-bookmark collection. -/
theorem advancedSearch_indexed_path_witness :
    (¬ demoQueryFilter.query = "") ∧ 50 < demoMgr.bookmarks.length ∧
    advancedSearch rmNone demoMgr demoQueryFilter =
      applyFilters demoQueryFilter
        (if (indexSearch demoMgr.bookmarks demoQueryFilter.query).isEmpty
         then demoMgr.bookmarks
         else indexSearch demoMgr.bookmarks demoQueryFilter.query) :=
  ⟨by decide, by decide,
   (advancedSearch_indexed_path rmNone demoMgr demoQueryFilter (by decide) (by decide)
     (by decide) (by decide)).1⟩

/-! ## Claim C5: the smart sort -/

set_option maxRecDepth 4000 in
/-- Claim C5, counterexample: the claim asserts that smart sorting with
direction ASC yields ascending score order for every collection.  On two
bookmarks with scores 0.498 < 2.098, sort_bookmarks with ASC returns the
higher-scored bookmark first (the code passes reverse=not reverse to the
score sort); and on a 1001-bookmark collection the smart branch is never
reached (the background path sorts by a nonexistent attribute and leaves
the descending-scored input order unchanged). -/
theorem sortBookmarks_smart_counterexample :
    smartScore 0 bRated < smartScore 0 bTopRated ∧
    sortBookmarks 0 [bRated, bTopRated] ("smart") SortOrder.ASC =
      Except.ok [bTopRated, bRated] ∧
    sortBookmarks 0 bigSmartColl ("smart") SortOrder.ASC = Except.ok bigSmartColl := by
  have h2 : (("tt" : String).data.length : Int) = 2 := by decide
  have hscore : smartScore 0 bRated < smartScore 0 bTopRated := by
    simp only [smartScore, bRated, bTopRated, ratingTruthy, ratingVal]
    norm_num [h2]
  refine ⟨hscore, ?_, ?_⟩
  · have hle : decide (smartScore 0 bTopRated ≤ smartScore 0 bRated) = false :=
      decide_eq_false (not_le.mpr hscore)
    show Except.ok (List.mergeSort [bRated, bTopRated]
      (fun x y => decide (smartScore 0 y ≤ smartScore 0 x))) =
      Except.ok [bTopRated, bRated]
    rw [List.mergeSort]
    simp [List.splitInTwo_fst, List.splitInTwo_snd, List.mergeSort, List.merge, hle]
  · have hlen : 1000 < bigSmartColl.length := by
      simp [bigSmartColl]
    have hattr : ∀ x ∈ bigSmartColl, pyAttr ("smart") x = PyKey.pstr ("") := by
      intro x hx
      rw [bigSmartColl] at hx
      rcases List.mem_cons.mp hx with hx | hx
      · subst hx
        decide
      · rw [List.eq_of_mem_replicate hx]
        decide
    rw [sortBookmarks]
    rw [if_neg (by decide), if_pos hlen]
    rw [backgroundSort]
    rw [if_pos]
    · rw [if_neg (by decide)]
      rw [List.mergeSort_of_sorted]
      apply List.pairwise_of_forall_mem_list
      intro a ha b hb
      rw [hattr a ha, hattr b hb]
      simp [pyKeyLe]
    · have hmap : bigSmartColl.map (pyAttr ("smart")) =
          PyKey.pstr ("") :: List.replicate 1000 (PyKey.pstr ("")) := by
        rw [bigSmartColl, List.map_cons, List.map_replicate]
        rw [show pyAttr ("smart") bTopRated = PyKey.pstr ("") from by decide]
        rw [show pyAttr ("smart") bRated = PyKey.pstr ("") from by decide]
      rw [hmap]
      simp only [List.all_cons, List.all_replicate, PyKey.isStr, PyKey.isInt, PyKey.isDate,
        PyKey.isList, List.length_cons, List.length_replicate]
      simp

/-- Claim C5, amended: for collections of at most 1000 records, sorting
by "smart" is the stable sort by the composite score
0.4·rating + 0.3·visitCount + 0.2·recency + 0.1·titleBrevity (each
missing input contributing 0), but with the directions swapped relative
to the claim: the result is in descending score order when the direction
is ASC and ascending score order when the direction is DESC; collections
above 1000 records bypass the smart branch entirely. -/
theorem sortBookmarks_smart_directions (now : Int) (bs : List Bookmark)
    (h : bs.length ≤ 1000) :
    (∃ out, sortBookmarks now bs ("smart") SortOrder.ASC = Except.ok out ∧
      out.Perm bs ∧ out.Pairwise (fun x y => smartScore now y ≤ smartScore now x)) ∧
    (∃ out, sortBookmarks now bs ("smart") SortOrder.DESC = Except.ok out ∧
      out.Perm bs ∧ out.Pairwise (fun x y => smartScore now x ≤ smartScore now y)) := by
  constructor
  · refine ⟨List.mergeSort bs (fun x y => decide (smartScore now y ≤ smartScore now x)),
      ?_, List.mergeSort_perm bs _, ?_⟩
    · rw [sortBookmarks]
      rw [if_neg (by decide), if_neg (by omega), if_neg (by decide), if_neg (by decide),
        if_neg (by decide), if_neg (by decide), if_neg (by decide), if_neg (by decide),
        if_neg (by decide), if_pos rfl]
      rfl
    · have hs := @List.sorted_mergeSort Bookmark
        (fun x y => decide (smartScore now y ≤ smartScore now x))
        (fun a b c hab hbc => by
          simp only [decide_eq_true_eq] at hab hbc ⊢
          exact le_trans hbc hab)
        (fun a b => by
          simp only [Bool.or_eq_true, decide_eq_true_eq]
          exact le_total (smartScore now b) (smartScore now a))
        bs
      exact hs.imp (fun hab => by simpa using hab)
  · refine ⟨List.mergeSort bs (fun x y => decide (smartScore now x ≤ smartScore now y)),
      ?_, List.mergeSort_perm bs _, ?_⟩
    · rw [sortBookmarks]
      rw [if_neg (by decide), if_neg (by omega), if_neg (by decide), if_neg (by decide),
        if_neg (by decide), if_neg (by decide), if_neg (by decide), if_neg (by decide),
        if_neg (by decide), if_pos rfl]
      rfl
    · have hs := @List.sorted_mergeSort Bookmark
        (fun x y => decide (smartScore now x ≤ smartScore now y))
        (fun a b c hab hbc => by
          simp only [decide_eq_true_eq] at hab hbc ⊢
          exact le_trans hab hbc)
        (fun a b => by
          simp only [Bool.or_eq_true, decide_eq_true_eq]
          exact le_total (smartScore now a) (smartScore now b))
        bs
      exact hs.imp (fun hab => by simpa using hab)

/-- Witness for the amended claim C5 on a two-bookmark collection. -/
theorem sortBookmarks_smart_directions_witness :
    ([bRated, bTopRated] : List Bookmark).length ≤ 1000 ∧
    (∃ out, sortBookmarks 0 [bRated, bTopRated] ("smart") SortOrder.ASC = Except.ok out ∧
      out.Perm [bRated, bTopRated] ∧
      out.Pairwise (fun x y => smartScore 0 y ≤ smartScore 0 x)) :=
  ⟨by decide, (sortBookmarks_smart_directions 0 [bRated, bTopRated] (by decide)).1⟩

/-! ## Claim C9: totality of the batch operations -/

set_option maxRecDepth 4000 in
/-- Claim C9 (code bug): sorting 1001 bookmarks by rating takes the
_background_sort path, whose getattr-based keys mix None with int; the
sort comparison None < int raises TypeError in Python, modelled as an
error result, so sort is not total over well-typed collections.  The
empty-collection half of the claim does hold: search, sort, the
performer analysis and duplicate detection all return empty results on
the empty collection. -/
theorem sortBookmarks_rating_typeerror :
    sortBookmarks 0 bigRatingColl ("rating") SortOrder.ASC =
      Except.error ("TypeError: incomparable sort keys") ∧
    sortBookmarks 0 ([] : List Bookmark) ("rating") SortOrder.ASC = Except.ok [] ∧
    advancedSearch rmNone (Manager.mk [] true true) defaultFilter = [] ∧
    findDuplicatesPhase1 [] = [] ∧
    analyzeByPerformers [] = [] := by
  refine ⟨?_, ?_, by decide, by decide, by decide⟩
  · have hlen : 1000 < bigRatingColl.length := by
      simp [bigRatingColl]
    rw [sortBookmarks]
    rw [if_neg (by decide), if_pos hlen]
    rw [backgroundSort]
    rw [if_neg]
    have hmap : bigRatingColl.map (pyAttr ("rating")) =
        PyKey.pnone :: List.replicate 1000 (PyKey.pint 1) := by
      rw [bigRatingColl, List.map_cons, List.map_replicate]
      rw [show pyAttr ("rating") bUnrated = PyKey.pnone from by decide]
      rw [show pyAttr ("rating") bRated = PyKey.pint 1 from by decide]
    rw [hmap]
    simp only [List.all_cons, List.all_replicate, PyKey.isInt, PyKey.isStr, PyKey.isDate,
      PyKey.isList, List.length_cons, List.length_replicate]
    simp
  · show Except.ok (List.mergeSort ([] : List Bookmark)
      (fun x y => decide (x.rating.getD 0 ≤ y.rating.getD 0))) = Except.ok ([] : List Bookmark)
    rw [List.mergeSort]

/-! ## Claim C10: shuffle_bookmarks -/

/-- Claim C10: for every positive count, shuffle returns distinct
bookmarks of the collection; every returned URL is in the updated
shown-links set; when some bookmark is unshown, min(count, unshown)
records are drawn from the unshown ones; when every bookmark was shown,
the set is cleared first and min(count, collection) records are drawn
from the whole collection.  The sampling function is any model of
random.sample: it returns k records drawn without replacement. -/
theorem shuffleBookmarks_spec
    (sample : List Bookmark → Nat → List Bookmark) (st : ShuffleState) (count : Nat)
    (hs : ∀ pop k, k ≤ pop.length →
      (sample pop k).length = k ∧ List.Subperm (sample pop k) pop)
    (hnd : st.bookmarks.Nodup) (hc : 0 < count) :
    ((shuffleBookmarks sample st count).1).Nodup ∧
    (∀ b ∈ (shuffleBookmarks sample st count).1, b ∈ st.bookmarks) ∧
    (∀ b ∈ (shuffleBookmarks sample st count).1,
      ((shuffleBookmarks sample st count).2).shownLinks.contains b.url = true) ∧
    ((st.bookmarks.filter (fun b => !st.shownLinks.contains b.url)).isEmpty = false →
      ((shuffleBookmarks sample st count).1).length =
        min count (st.bookmarks.filter (fun b => !st.shownLinks.contains b.url)).length ∧
      ∀ b ∈ (shuffleBookmarks sample st count).1, st.shownLinks.contains b.url = false) ∧
    ((st.bookmarks.filter (fun b => !st.shownLinks.contains b.url)).isEmpty = true →
      ((shuffleBookmarks sample st count).1).length = min count st.bookmarks.length ∧
      ((shuffleBookmarks sample st count).2).shownLinks =
        ((shuffleBookmarks sample st count).1).map (fun b => b.url)) := by
  have hlen : ∀ (avail : List Bookmark),
      (sample avail (min count avail.length)).length = min count avail.length :=
    fun avail => (hs avail (min count avail.length) (Nat.min_le_right count avail.length)).1
  have hsub : ∀ (avail : List Bookmark),
      List.Subperm (sample avail (min count avail.length)) avail :=
    fun avail => (hs avail (min count avail.length) (Nat.min_le_right count avail.length)).2
  have hndsamp : ∀ (avail : List Bookmark), avail.Nodup →
      (sample avail (min count avail.length)).Nodup := by
    intro avail hav
    obtain ⟨u, hu1, hu2⟩ := hsub avail
    exact hu1.nodup (hu2.nodup hav)
  cases hA : (st.bookmarks.filter (fun b => !st.shownLinks.contains b.url)).isEmpty with
  | true =>
    have hred : shuffleBookmarks sample st count =
        (sample st.bookmarks (min count st.bookmarks.length),
         ShuffleState.mk st.bookmarks
           ((sample st.bookmarks (min count st.bookmarks.length)).map (fun b => b.url))) := by
      simp only [shuffleBookmarks]
      rw [hA]
      rw [if_pos rfl, if_pos rfl, List.append_nil]
    rw [hred]
    refine ⟨hndsamp st.bookmarks hnd, fun b hb => (hsub st.bookmarks).subset hb,
      ?_, ?_, fun _ => ⟨hlen st.bookmarks, rfl⟩⟩
    · intro b hb
      have hm : b.url ∈ (sample st.bookmarks (min count st.bookmarks.length)).map
          (fun b => b.url) := List.mem_map.mpr ⟨b, hb, rfl⟩
      simpa [List.contains, List.elem_iff] using hm
    · intro hfalse
      exact Bool.noConfusion hfalse
  | false =>
    have hred : shuffleBookmarks sample st count =
        (sample (st.bookmarks.filter (fun b => !st.shownLinks.contains b.url))
           (min count (st.bookmarks.filter (fun b => !st.shownLinks.contains b.url)).length),
         ShuffleState.mk st.bookmarks
           ((sample (st.bookmarks.filter (fun b => !st.shownLinks.contains b.url))
               (min count
                 (st.bookmarks.filter (fun b => !st.shownLinks.contains b.url)).length)).map
             (fun b => b.url) ++ st.shownLinks)) := by
      have hne : ¬ (false = true) := by decide
      simp only [shuffleBookmarks]
      rw [hA]
      rw [if_neg hne, if_neg hne]
    have hmemA : ∀ b ∈ sample (st.bookmarks.filter (fun b => !st.shownLinks.contains b.url))
        (min count (st.bookmarks.filter (fun b => !st.shownLinks.contains b.url)).length),
        b ∈ st.bookmarks.filter (fun b => !st.shownLinks.contains b.url) :=
      fun b hb => (hsub (st.bookmarks.filter (fun b => !st.shownLinks.contains b.url))).subset hb
    rw [hred]
    refine ⟨hndsamp (st.bookmarks.filter (fun b => !st.shownLinks.contains b.url))
        (hnd.filter (fun b => !st.shownLinks.contains b.url)),
      fun b hb => (List.mem_filter.mp (hmemA b hb)).1, ?_, ?_, ?_⟩
    · intro b hb
      have hm : b.url ∈ (sample (st.bookmarks.filter (fun b => !st.shownLinks.contains b.url))
          (min count (st.bookmarks.filter (fun b => !st.shownLinks.contains b.url)).length)).map
          (fun b => b.url) := List.mem_map.mpr ⟨b, hb, rfl⟩
      simp only [ShuffleState.mk]
      simpa [List.contains, List.elem_iff] using Or.inl hm
    · intro _
      refine ⟨hlen (st.bookmarks.filter (fun b => !st.shownLinks.contains b.url)), ?_⟩
      intro b hb
      have hbf := (List.mem_filter.mp (hmemA b hb)).2
      simpa using hbf
    · intro htrue
      exact Bool.noConfusion htrue

/-- Witness for claim C10 on a two-bookmark state with one shown link,
with the prefix-taking sampler. -/
theorem shuffleBookmarks_spec_witness :
    shuffleDemoState.bookmarks.Nodup ∧ 0 < 1 ∧
    (∀ b ∈ (shuffleBookmarks sampleTake shuffleDemoState 1).1,
      ((shuffleBookmarks sampleTake shuffleDemoState 1).2).shownLinks.contains b.url = true) :=
  ⟨by decide, by decide,
   (shuffleBookmarks_spec sampleTake shuffleDemoState 1
     (fun pop k hk =>
       ⟨by rw [sampleTake, List.length_take]; exact Nat.min_eq_left hk,
        by rw [sampleTake]; exact (List.take_sublist k pop).subperm⟩)
     (by decide) (by decide)).2.2.1⟩
